import Mathlib

/-!
# converter.js : PlantUML entities to a Draw.io Venn diagram

A shallow embedding of `src/converter.js`.

* JavaScript strings are Lean `String`s (character lists).  The only string
  operations of the program that look inside a string are the regular
  expression `/\(([^)]+)\)/g`, which tells `(` and `)` from every other
  character, `join(',')`, and the default comparison of `Array.prototype.sort`,
  which orders strings by their UTF-16 code units.
* JavaScript numbers are the finite doubles, kept as the rationals they denote:
  every arithmetic operation on the radius in `getVennPositions` is followed by
  `roundDouble`, the rounding to the nearest double (ties to even, 53 bit
  significand, subnormal numbers included).  Overflow to `Infinity` is not
  modelled: it needs a radius above `2 ^ 1000`, which the theorems on all radii
  exclude.  The integers `200 + 50 * i`, `index * 50` and `radius * 2 = 400` are
  exact in doubles for every index of an array and are computed exactly.
* The XML tree built with `xmlbuilder2` is kept as a tree: the fixed wrapper
  elements with their attributes, and the list of `mxCell` children of the
  logical `root` element in insertion order.  Its serialisation by the library
  is a parameter of `convert`.
* The file system and the console are an explicit state, on which
  `readFileSync` and `writeFileSync` may fail with an error message.
-/

namespace Converter

/-! ## Label extraction: `/\(([^)]+)\)/g`, `matchAll`, `new Set` -/

/-- One match object of `matchAll`: the place `m.index` of the match in the
text, counted in characters, the matched text `m[0]` and the capture `m[1]`. -/
structure RegExpMatch where
  index : Nat
  full : String
  capture : String
  deriving DecidableEq

/-- The greedy class `[^)]+` followed by `\)`, run on the characters after an
opening parenthesis: the longest run of characters other than `)` is consumed;
the attempt succeeds when the run is not empty and the next character is `)`
(giving back characters cannot help, none of them is `)`).  The result is the
captured run and the text after the closing parenthesis. -/
def classThenClose (cs : List Char) : Option (List Char × List Char) :=
  match cs.span (fun c => c != ')') with
  | (run, ')' :: rest) => if run = [] then none else some (run, rest)
  | _ => none

/-- One attempt of the regular expression `\(([^)]+)\)` at the head of the
text. -/
def execAt : List Char → Option (List Char × List Char)
  | '(' :: cs => classThenClose cs
  | _ => none

/-- The matches of `text.matchAll(/\(([^)]+)\)/g)` from position `pos` on, `cs`
being the text from `pos`: the leftmost attempt that succeeds is a match, and
the search goes on right after it; a position where the attempt fails is
skipped.  Every step consumes at least one character, so `fuel` bounds the
number of steps by the length of the text. -/
def matchAllFrom : Nat → Nat → List Char → List RegExpMatch
  | 0, _, _ => []
  | _ + 1, _, [] => []
  | fuel + 1, pos, c :: tl =>
    match execAt (c :: tl) with
    | some (run, rest) =>
      { index := pos
        full := String.mk ('(' :: run ++ [')'])
        capture := String.mk run } ::
        matchAllFrom fuel (pos + (run.length + 2)) rest
    | none => matchAllFrom fuel (pos + 1) tl

/-- The array `[...pumlContent.matchAll(regex)]`. -/
def matchAll (pumlContent : String) : List RegExpMatch :=
  matchAllFrom pumlContent.data.length 0 pumlContent.data

/-- The array `[...new Set(xs)]`: the values are added one by one, a value that
is already in the set is not added again, and the set is iterated in insertion
order. -/
def newSet (xs : List String) : List String :=
  xs.foldl (fun acc x => if x ∈ acc then acc else acc ++ [x]) []

/-- The constant `sets` of `convert`: the unique labels of the input text. -/
def extractSets (pumlContent : String) : List String :=
  newSet ((matchAll pumlContent).map (fun m => m.capture))

/-! ## Layout: `getVennPositions` -/

/-- One entry `{ x, y }` of the array returned by `getVennPositions`. -/
structure Position where
  x : ℚ
  y : ℚ
  deriving DecidableEq

/-- Rounding of a rational to the nearest integer, a tie going to the even
one. -/
def roundHalfEven (x : ℚ) : ℤ :=
  if x - ⌊x⌋ < 1 / 2 then ⌊x⌋
  else if 1 / 2 < x - ⌊x⌋ then ⌊x⌋ + 1
  else if ⌊x⌋ % 2 = 0 then ⌊x⌋ else ⌊x⌋ + 1

/-- The exponent of the last bit of the double nearest to `q`: 52 below the
exponent of `q`, and `-1074` for the subnormal numbers. -/
def ulpExponent (q : ℚ) : ℤ :=
  max (Int.log 2 |q| - 52) (-1074)

/-- The double nearest to `q`, ties to even: the result of a JavaScript
arithmetic operation whose exact value is `q`, and the value of a decimal
literal `q`. -/
def roundDouble (q : ℚ) : ℚ :=
  (roundHalfEven (q / 2 ^ ulpExponent q) : ℚ) * 2 ^ ulpExponent q

/-- The function `getVennPositions(count, r)`.  The literal `0.8` and the
operations `r * 0.8`, `overlap / 2`, `overlap * 0.8` and the sums with `startX`,
`startY` are rounded to doubles; the sums `startX + (i*50)` of the cascade are
integers, exact in doubles. -/
def getVennPositions (count : Nat) (r : ℚ) : List Position :=
  let startX : ℚ := 200
  let startY : ℚ := 200
  let overlap : ℚ := roundDouble (r * roundDouble 0.8)
  if count = 2 then
    [{ x := startX, y := startY },
     { x := roundDouble (startX + overlap), y := startY }]
  else if count = 3 then
    [{ x := roundDouble (startX + roundDouble (overlap / 2)), y := startY },
     { x := startX, y := roundDouble (startY + roundDouble (overlap * roundDouble 0.8)) },
     { x := roundDouble (startX + overlap),
       y := roundDouble (startY + roundDouble (overlap * roundDouble 0.8)) }]
  else
    (List.range count).map
      (fun (i : Nat) => { x := startX + ((i : ℚ) * 50), y := startY + ((i : ℚ) * 50) })

/-! ## Document: `generateDrawIoXml` -/

/-- The `mxGeometry` child of a cell.  The attribute values, which the source
renders with `String(..)`, are kept as numbers. -/
structure MxGeometry where
  x : ℚ
  y : ℚ
  width : ℚ
  height : ℚ
  as : String
  deriving DecidableEq

/-- One `mxCell` element under the logical root; an attribute that the source
does not set is `none`. -/
structure MxCell where
  id : String
  value : Option String
  style : Option String
  parent : Option String
  vertex : Option String
  geometry : Option MxGeometry
  deriving DecidableEq

/-- The elements created by `generateDrawIoXml`: the attributes of `mxfile`,
`diagram` and `mxGraphModel`, and the children of `root`. -/
structure Document where
  mxfile : List (String × String)
  diagram : List (String × String)
  mxGraphModel : List (String × String)
  root : List MxCell
  deriving DecidableEq

/-- The UTF-16 code units of a character. -/
def utf16 (c : Char) : List Nat :=
  if c.toNat < 0x10000 then [c.toNat]
  else [0xD800 + (c.toNat - 0x10000) / 0x400, 0xDC00 + (c.toNat - 0x10000) % 0x400]

/-- The UTF-16 code units of a string. -/
def codeUnits (s : String) : List Nat :=
  s.data.flatMap utf16

/-- Lexicographic comparison of code unit sequences. -/
def unitsLt : List Nat → List Nat → Bool
  | _, [] => false
  | [], _ :: _ => true
  | a :: as, b :: bs => a < b || (a == b && unitsLt as bs)

/-- The comparison `x < y` of two strings, by code units. -/
def stringLt (x y : String) : Bool :=
  unitsLt (codeUnits x) (codeUnits y)

/-- The method `sort()` without a comparison function, on an array of strings:
a stable sort in which `x` stays before `y` unless `y < x`. -/
def sort (xs : List String) : List String :=
  xs.insertionSort (fun x y => stringLt y x = false)

/-- The method `join(sep)` on an array of strings. -/
def join (sep : String) (xs : List String) : String :=
  sep.intercalate xs

/-- The palette `colors`. -/
def colors : List String := ["#f8cecc", "#dae8fc", "#d5e8d4"]

/-- The palette `strokes`. -/
def strokes : List String := ["#b85450", "#6c8ebf", "#82b366"]

/-- The cell appended by one round of `sets.forEach((label, index) => ..)`;
an array access outside the array gives `undefined`. -/
def entityCell (positions : List Position) (width height : ℚ) (opacity : Nat)
    (index : Nat) ( label : String) : MxCell :=
  let x : ℚ := match positions[index]? with
    | some p => p.x
    | none => (index : ℚ) * 50
  let y : ℚ := match positions[index]? with
    | some p => p.y
    | none => (index : ℚ) * 50
  let color := colors.getD (index % colors.length) "undefined"
  let stroke := strokes.getD (index % strokes.length) "undefined"
  let style := "ellipse;whiteSpace=wrap;html=1;fillColor=" ++ color ++ ";strokeColor=" ++ stroke
    ++ ";opacity=" ++ toString opacity ++ ";fontStyle=1;fontSize=20;"
  { id := "entity_" ++ toString index
    value := some label
    style := some style
    parent := some "1"
    vertex := some "1"
    geometry := some { x := x, y := y, width := width, height := height, as := "geometry" } }

/-- One entry `{ id, value, x, y }` of the array `texts`. -/
structure TextBlock where
  id : String
  value : String
  x : ℚ
  y : ℚ
  deriving DecidableEq

/-- The array `texts`. -/
def texts : List TextBlock :=
  [{ id := "unique_react", value := "Virtual DOM\nJSX", x := 280, y := 120 },
   { id := "unique_angular", value := "Two-way binding\nDependency injection", x := 120, y := 328 },
   { id := "unique_vue", value := "Reactive data\nSingle-file components", x := 440, y := 328 },
   { id := "react_angular", value := "Component-based\nTypeScript", x := 220, y := 280 },
   { id := "react_vue", value := "Virtual DOM\nReactivity", x := 340, y := 280 },
   { id := "angular_vue", value := "Directives\nTemplates", x := 280, y := 408 },
   { id := "all", value := "JavaScript\nSPA", x := 280, y := 328 }]

/-- The cell appended by one round of `texts.forEach(text => ..)`. -/
def textCell (text : TextBlock) : MxCell :=
  { id := text.id
    value := some text.value
    style := some "text;html=1;verticalAlign=top;whiteSpace=wrap;fontSize=12;"
    parent := some "1"
    vertex := some "1"
    geometry := some { x := text.x, y := text.y, width := 100, height := 50, as := "geometry" } }

/-- The test `sets.length === 3 && sets.sort().join(',') === 'Angular,React,Vue'`. -/
def overlayApplies (sets : List String) : Bool :=
  sets.length == 3 && join "," (sort sets) == "Angular,React,Vue"

/-- The function `generateDrawIoXml(sets)`, up to the call of `root.end`, which
serialises the tree.  The circle cells are appended before `sets.sort()` puts
the array in order. -/
def generateDrawIoXml (sets : List String) : Document :=
  let radius : ℚ := 200
  let width := radius * 2
  let height := radius * 2
  let opacity := 50
  let positions := getVennPositions sets.length radius
  { mxfile := [("host", "Electron"), ("type", "device")]
    diagram := [("name", "Page-1"), ("id", "diagram_1")]
    mxGraphModel := [("dx", "1000"), ("dy", "1000"), ("grid", "1"), ("gridSize", "10"),
      ("guides", "1"), ("tooltips", "1"), ("connect", "1"), ("arrows", "1"), ("fold", "1"),
      ("page", "1"), ("pageScale", "1"), ("pageWidth", "827"), ("pageHeight", "1169"),
      ("math", "0"), ("shadow", "0")]
    root :=
      [{ id := "0", value := none, style := none, parent := none, vertex := none,
         geometry := none },
       { id := "1", value := none, style := none, parent := some "0", vertex := none,
         geometry := none }]
      ++ sets.mapIdx (entityCell positions width height opacity)
      ++ (if overlayApplies sets then texts.map textCell else []) }

/-! ## Files and console: `convert` -/

/-- One line printed by `console.log`, `console.warn` or `console.error`. -/
inductive ConsoleLine where
  | log (text : String)
  | warn (text : String)
  | error (text : String)
  deriving DecidableEq

/-- The file system, as `convert` sees it: for every path, the content that
`fs.readFileSync(path, 'utf-8')` returns or the message of the error it throws,
and the message of the error that `fs.writeFileSync(path, ..)` throws when the
path cannot be written. -/
structure FileSystem where
  read : String → Except String String
  writeError : String → Option String

/-- The state outside the program: the file system and the lines printed so
far. -/
structure World where
  fs : FileSystem
  console : List ConsoleLine

/-- The call `fs.readFileSync(path, 'utf-8')`: the content, or the message of the
error thrown. -/
def readFileSync (w : World) (path : String) : Except String String :=
  w.fs.read path

/-- The call `fs.writeFileSync(path, data)`: the world in which `path` holds
`data`, or the message of the error thrown, the file system being left as it
was. -/
def writeFileSync (w : World) (path data : String) : Except String World :=
  match w.fs.writeError path with
  | some message => Except.error message
  | none =>
    Except.ok
      { fs := { read := fun p => if p = path then Except.ok data else w.fs.read p
                writeError := w.fs.writeError }
        console := w.console }

/-- The call `console.log(text)`. -/
def consoleLog (w : World) (text : String) : World :=
  { fs := w.fs, console := w.console ++ [ConsoleLine.log text] }

/-- The call `console.warn(text)`. -/
def consoleWarn (w : World) (text : String) : World :=
  { fs := w.fs, console := w.console ++ [ConsoleLine.warn text] }

/-- The call `console.error("Error:", message)`, which prints its arguments with
a blank between them. -/
def consoleError (w : World) (message : String) : World :=
  { fs := w.fs, console := w.console ++ [ConsoleLine.error ("Error: " ++ message)] }

/-- The function `convert(inputPath, outputPath)`.  The result is the world after
the call, or the message of an error that leaves `convert`; the two `catch`
branches are the two places where a call of the `try` block can throw.  The
serialiser `root.end({ prettyPrint: true })` of the library `xmlbuilder2` is the
parameter `serialize`. -/
def convert (serialize : Document → String) (inputPath outputPath : String) (w : World) :
    Except String World :=
  match readFileSync w inputPath with
  | Except.error message => Except.ok (consoleError w message)
  | Except.ok pumlContent =>
    let sets := extractSets pumlContent
    let w1 :=
      if sets.length < 2 || sets.length > 3 then
        consoleWarn w ("Warning: Perfect Venn diagrams are best with 2 or 3 sets. Found "
          ++ toString sets.length ++ ". Logic will attempt to place them anyway.")
      else w
    let w2 := consoleLog w1
      ("Found " ++ toString sets.length ++ " sets: " ++ join ", " sets)
    let xml := serialize (generateDrawIoXml sets)
    match writeFileSync w2 outputPath xml with
    | Except.error message => Except.ok (consoleError w2 message)
    | Except.ok w3 => Except.ok (consoleLog w3 ("Successfully created " ++ outputPath))

/-! ## The drawn circles -/

/-- The centre of the shape drawn for a cell of geometry `x`, `y`, `width`,
`height`: Draw.io draws the cell in the box whose top-left corner is `(x, y)`,
an `ellipse` cell as the ellipse inscribed in that box. -/
def boxCentre (g : MxGeometry) : Position :=
  { x := g.x + g.width / 2, y := g.y + g.height / 2 }

/-- The centre of the circle of radius `r` inscribed in the box of sides `2 r`
whose top-left corner is `p`. -/
def circleCentre (p : Position) (r : ℚ) : Position :=
  { x := p.x + r, y := p.y + r }

/-- The square of the distance between two points. -/
def distSq (a b : Position) : ℚ :=
  (a.x - b.x) ^ 2 + (a.y - b.y) ^ 2

/-- The point `q` lies strictly inside the circle of centre `c` and radius
`r`. -/
def insideCircle (c : Position) (r : ℚ) (q : Position) : Prop :=
  distSq q c < r ^ 2

instance (c : Position) (r : ℚ) (q : Position) : Decidable (insideCircle c r q) :=
  inferInstanceAs (Decidable (distSq q c < r ^ 2))

/-- The centroid of three points. -/
def centroid (a b c : Position) : Position :=
  { x := (a.x + b.x + c.x) / 3, y := (a.y + b.y + c.y) / 3 }

/-! ## The set of labels: `newSet` keeps the first occurrences -/

theorem newSet_concat (xs : List String) (x : String) :
    newSet (xs ++ [x]) = if x ∈ newSet xs then newSet xs else newSet xs ++ [x] := by
  simp [newSet, List.foldl_append]

theorem mem_newSet (xs : List String) (l : String) : l ∈ newSet xs ↔ l ∈ xs := by
  induction xs using List.reverseRecOn with
  | nil => simp [newSet]
  | append_singleton xs x ih =>
    rw [newSet_concat]
    by_cases hx : x ∈ newSet xs
    · rw [if_pos hx, ih, List.mem_append, List.mem_singleton]
      constructor
      · exact Or.inl
      · rintro (h | rfl)
        · exact h
        · exact ih.mp hx
    · rw [if_neg hx, List.mem_append, List.mem_append, ih]

theorem newSet_nodup (xs : List String) : (newSet xs).Nodup := by
  induction xs using List.reverseRecOn with
  | nil => simp [newSet]
  | append_singleton xs x ih =>
    rw [newSet_concat]
    by_cases hx : x ∈ newSet xs
    · rw [if_pos hx]; exact ih
    · rw [if_neg hx]
      exact List.Nodup.append ih (List.nodup_singleton x) (by simpa using hx)

theorem newSet_sublist (xs : List String) : (newSet xs).Sublist xs := by
  induction xs using List.reverseRecOn with
  | nil => simp [newSet]
  | append_singleton xs x ih =>
    rw [newSet_concat]
    by_cases hx : x ∈ newSet xs
    · rw [if_pos hx]; exact ih.trans (List.sublist_append_left xs [x])
    · rw [if_neg hx]; exact List.Sublist.append ih (List.Sublist.refl [x])

theorem newSet_indexOf_lt (xs : List String) (i j : Nat) (a b : String) (hij : i < j)
    (ha : (newSet xs)[i]? = some a) (hb : (newSet xs)[j]? = some b) :
    xs.indexOf a < xs.indexOf b := by
  induction xs using List.reverseRecOn generalizing i j a b with
  | nil => simp [newSet] at hb
  | append_singleton xs x ih =>
    rw [newSet_concat] at ha hb
    have hamem : ∀ k c, (newSet xs)[k]? = some c → c ∈ xs := fun k c h =>
      (mem_newSet xs c).mp (List.getElem?_mem h)
    by_cases hx : x ∈ newSet xs
    · rw [if_pos hx] at ha hb
      rw [List.indexOf_append_of_mem (hamem i a ha), List.indexOf_append_of_mem (hamem j b hb)]
      exact ih i j a b hij ha hb
    · rw [if_neg hx] at ha hb
      have hjlen : j < (newSet xs ++ [x]).length := (List.getElem?_eq_some_iff.mp hb).1
      rw [List.length_append, List.length_singleton] at hjlen
      have hia : (newSet xs)[i]? = some a := by
        rw [List.getElem?_append_left (by omega)] at ha; exact ha
      by_cases hjl : j < (newSet xs).length
      · rw [List.getElem?_append_left hjl] at hb
        rw [List.indexOf_append_of_mem (hamem i a hia),
          List.indexOf_append_of_mem (hamem j b hb)]
        exact ih i j a b hij hia hb
      · have hje : j = (newSet xs).length := by omega
        subst hje
        rw [List.getElem?_append_right (le_refl _)] at hb
        simp only [Nat.sub_self, List.getElem?_cons_zero, Option.some.injEq] at hb
        subst hb
        have hxn : x ∉ xs := fun h => hx ((mem_newSet xs x).mpr h)
        rw [List.indexOf_append_of_mem (hamem i a hia),
          List.indexOf_append_of_not_mem hxn]
        have := List.indexOf_lt_length.mpr (hamem i a hia)
        simp only [List.indexOf_cons_self, Nat.add_zero]
        exact this

/-! ## The regular expression: what a match is, and in which order matches come -/

theorem classThenClose_eq_some (cs run rest : List Char) :
    classThenClose cs = some (run, rest) ↔
      cs = run ++ ')' :: rest ∧ run ≠ [] ∧ ')' ∉ run := by
  constructor
  · intro h
    unfold classThenClose at h
    split at h
    · rename_i r rs hs
      rw [List.span_eq_take_drop] at hs
      simp only [Prod.mk.injEq] at hs
      obtain ⟨h1, h2⟩ := hs
      split at h
      · cases h
      · rename_i hne
        simp only [Option.some.injEq, Prod.mk.injEq] at h
        obtain ⟨rfl, rfl⟩ := h
        refine ⟨?_, hne, ?_⟩
        · rw [← h1, ← h2]; exact (List.takeWhile_append_dropWhile _ cs).symm
        · intro hmem
          rw [← h1] at hmem
          have := List.mem_takeWhile_imp hmem
          simp at this
    · cases h
  · rintro ⟨rfl, hne, hnot⟩
    have hp : ∀ a ∈ run, (fun c : Char => c != ')') a = true := by
      intro a ha
      have : a ≠ ')' := fun h => hnot (h ▸ ha)
      simpa using this
    unfold classThenClose
    rw [List.span_eq_take_drop, List.takeWhile_append_of_pos hp,
      List.dropWhile_append_of_pos hp]
    simp [hne]

theorem execAt_eq_some (cs run rest : List Char) :
    execAt cs = some (run, rest) ↔
      cs = '(' :: run ++ ')' :: rest ∧ run ≠ [] ∧ ')' ∉ run := by
  unfold execAt
  split
  · rename_i tl
    rw [classThenClose_eq_some]
    simp
  · rename_i hcs
    constructor
    · intro h; cases h
    · rintro ⟨rfl, -, -⟩
      exact absurd rfl (hcs _)

/-- Every match found from position `pos` on starts at an opening parenthesis of
the text, and its capture is the text up to the first closing one. -/
theorem matchAllFrom_sound (fuel pos : Nat) (cs : List Char) (m : RegExpMatch)
    (h : m ∈ matchAllFrom fuel pos cs) :
    ∃ pre rest, cs = pre ++ '(' :: m.capture.data ++ ')' :: rest ∧
      m.index = pos + pre.length ∧ m.capture.data ≠ [] ∧ ')' ∉ m.capture.data ∧
      m.full = "(" ++ m.capture ++ ")" := by
  induction fuel generalizing pos cs with
  | zero => simp [matchAllFrom] at h
  | succ fuel ih =>
    cases cs with
    | nil => simp [matchAllFrom] at h
    | cons c tl =>
      rw [matchAllFrom] at h
      cases hE : execAt (c :: tl) with
      | none =>
        rw [hE] at h
        obtain ⟨pre, rest, h1, h2, h3⟩ := ih (pos + 1) tl h
        refine ⟨c :: pre, rest, ?_, ?_, h3⟩
        · rw [h1]; rfl
        · rw [h2, List.length_cons]; omega
      | some p =>
        obtain ⟨run, rest⟩ := p
        rw [hE] at h
        simp only [List.mem_cons] at h
        obtain ⟨hcs, hne, hnot⟩ := (execAt_eq_some _ _ _).mp hE
        rcases h with rfl | h
        · exact ⟨[], rest, by simpa using hcs, by simp, hne, hnot, by
            apply String.ext; simp⟩
        · obtain ⟨pre, rest2, h1, h2, h3⟩ := ih _ rest h
          refine ⟨'(' :: run ++ ')' :: pre, rest2, ?_, ?_, h3⟩
          · rw [hcs, h1]; simp
          · rw [h2]; simp; omega

/-- The matches are listed from left to right. -/
theorem matchAllFrom_index (fuel pos : Nat) (cs : List Char) :
    (∀ m ∈ matchAllFrom fuel pos cs, pos ≤ m.index) ∧
      (matchAllFrom fuel pos cs).Pairwise (fun a b => a.index < b.index) := by
  induction fuel generalizing pos cs with
  | zero => simp [matchAllFrom]
  | succ fuel ih =>
    cases cs with
    | nil => simp [matchAllFrom]
    | cons c tl =>
      rw [matchAllFrom]
      cases hE : execAt (c :: tl) with
      | none =>
        obtain ⟨h1, h2⟩ := ih (pos + 1) tl
        exact ⟨fun m hm => by have := h1 m hm; omega, h2⟩
      | some p =>
        obtain ⟨run, rest⟩ := p
        obtain ⟨h1, h2⟩ := ih (pos + (run.length + 2)) rest
        constructor
        · intro m hm
          simp only [List.mem_cons] at hm
          rcases hm with rfl | hm
          · exact le_refl _
          · have := h1 m hm; omega
        · rw [List.pairwise_cons]
          refine ⟨fun m hm => ?_, h2⟩
          have := h1 m hm
          show pos < m.index
          omega

/-- A text without an opening parenthesis has no match. -/
theorem matchAllFrom_eq_nil (fuel pos : Nat) (cs : List Char) (h : '(' ∉ cs) :
    matchAllFrom fuel pos cs = [] := by
  induction fuel generalizing pos cs with
  | zero => simp [matchAllFrom]
  | succ fuel ih =>
    cases cs with
    | nil => simp [matchAllFrom]
    | cons c tl =>
      rw [matchAllFrom]
      have hc : c ≠ '(' := fun e => h (e ▸ List.mem_cons_self _ _)
      have hE : execAt (c :: tl) = none := by
        unfold execAt
        split
        · rename_i heq
          simp only [List.cons.injEq] at heq
          exact absurd heq.1 hc
        · rfl
      rw [hE]
      exact ih (pos + 1) tl (fun hm => h (List.mem_cons_of_mem _ hm))

/-- The fuel given by `matchAll`, the length of the text, is enough: more fuel
finds the same matches. -/
theorem matchAllFrom_fuel (fuel fuel2 pos : Nat) (cs : List Char) (h : cs.length ≤ fuel)
    (h2 : cs.length ≤ fuel2) :
    matchAllFrom fuel pos cs = matchAllFrom fuel2 pos cs := by
  induction fuel generalizing fuel2 pos cs with
  | zero =>
    have : cs = [] := List.eq_nil_of_length_eq_zero (by omega)
    subst this
    cases fuel2 <;> rfl
  | succ fuel ih =>
    cases cs with
    | nil => cases fuel2 <;> rfl
    | cons c tl =>
      rw [List.length_cons] at h h2
      obtain ⟨k, rfl⟩ : ∃ k, fuel2 = k + 1 := ⟨fuel2 - 1, by omega⟩
      rw [matchAllFrom, matchAllFrom]
      cases hE : execAt (c :: tl) with
      | none =>
        simp only
        exact ih k (pos + 1) tl (by omega) (by omega)
      | some p =>
        obtain ⟨run, rest⟩ := p
        simp only
        obtain ⟨hcs, -, -⟩ := (execAt_eq_some _ _ _).mp hE
        have hlen : rest.length ≤ tl.length := by
          have := congrArg List.length hcs
          simp at this
          omega
        rw [ih k _ rest (by omega) (by omega)]

theorem matchAll_sound (t : String) (m : RegExpMatch) (h : m ∈ matchAll t) :
    ∃ pre rest : String, t = pre ++ "(" ++ m.capture ++ ")" ++ rest ∧
      m.index = pre.length ∧ m.capture ≠ "" ∧ ')' ∉ m.capture.data ∧
      m.full = "(" ++ m.capture ++ ")" := by
  obtain ⟨pre, rest, h1, h2, h3, h4, h5⟩ := matchAllFrom_sound _ _ _ m h
  refine ⟨String.mk pre, String.mk rest, ?_, ?_, ?_, h4, h5⟩
  · apply String.ext
    simp [h1]
  · simpa [String.length] using h2
  · intro e
    apply h3
    rw [e]

theorem indexOf_le_of_getElem? (l : List String) (k : Nat) (b : String)
    (h : l[k]? = some b) : l.indexOf b ≤ k := by
  induction l generalizing k with
  | nil => simp at h
  | cons a l ih =>
    by_cases e : a = b
    · rw [List.indexOf_cons_eq l e]; exact Nat.zero_le _
    · rw [List.indexOf_cons_ne l e]
      cases k with
      | zero => simp at h; exact absurd h e
      | succ k =>
        simp only [List.getElem?_cons_succ] at h
        exact Nat.succ_le_succ (ih k h)

theorem mem_extractSets (t l : String) :
    l ∈ extractSets t ↔ ∃ m ∈ matchAll t, m.capture = l := by
  unfold extractSets
  rw [mem_newSet, List.mem_map]

/-- The labels are in the order of the position of their first capture in the
text. -/
theorem extractSets_order (t : String) (i j : Nat) (a b : String) (hij : i < j)
    (ha : (extractSets t)[i]? = some a) (hb : (extractSets t)[j]? = some b) :
    ∃ ma ∈ matchAll t, ma.capture = a ∧
      ∀ mb ∈ matchAll t, mb.capture = b → ma.index < mb.index := by
  have hlt := newSet_indexOf_lt _ i j a b hij ha hb
  have hamem : a ∈ (matchAll t).map (fun m => m.capture) :=
    (mem_newSet _ a).mp (List.getElem?_mem ha)
  have hia := List.getElem?_indexOf hamem
  rw [List.getElem?_map] at hia
  cases hma : (matchAll t)[List.indexOf a ((matchAll t).map (fun m => m.capture))]? with
  | none => rw [hma] at hia; cases hia
  | some ma =>
    rw [hma] at hia
    simp only [Option.map_some', Option.some.injEq] at hia
    refine ⟨ma, List.getElem?_mem hma, hia, ?_⟩
    intro mb hmb hcap
    obtain ⟨k, hk⟩ := List.mem_iff_getElem?.mp hmb
    have hkb : ((matchAll t).map (fun m => m.capture))[k]? = some b := by
      rw [List.getElem?_map, hk]; simp [hcap]
    have hle := indexOf_le_of_getElem? _ k b hkb
    have hpair := (matchAllFrom_index t.data.length 0 t.data).2
    obtain ⟨h1, e1⟩ := List.getElem?_eq_some_iff.mp hma
    obtain ⟨h2, e2⟩ := List.getElem?_eq_some_iff.mp hk
    have := List.pairwise_iff_getElem.mp hpair _ k h1 h2 (by omega)
    rw [← e1, ← e2]
    exact this

/-- Claim C1: for every input text, the labels extracted by `convert` (the
captures of `/\(([^)]+)\)/g` from left to right, passed through `new Set`) have
no repeated element, are the captures with the later repeats removed (a sublist
of the captures with the same members), and are in the order of first capture:
of two labels at positions `i < j`, the first capture of the one at `i` comes
earlier, in the list of captures and in the text, than every capture of the one
at `j`.  The matches are listed by increasing position, and each is at a place of
the text where its capture stands between `(` and `)`.  The text
`(A) and (B) and (A)` yields `A`, `B`. -/
theorem extractSets_first_seen :
    (∀ t : String,
      (extractSets t).Nodup ∧
      (extractSets t).Sublist ((matchAll t).map (fun m => m.capture)) ∧
      (∀ l, l ∈ extractSets t ↔ ∃ m ∈ matchAll t, m.capture = l) ∧
      (∀ (i j : Nat) (a b : String), i < j → (extractSets t)[i]? = some a → (extractSets t)[j]? = some b →
        ((matchAll t).map (fun m => m.capture)).indexOf a
            < ((matchAll t).map (fun m => m.capture)).indexOf b ∧
          ∃ ma ∈ matchAll t, ma.capture = a ∧
            ∀ mb ∈ matchAll t, mb.capture = b → ma.index < mb.index) ∧
      (matchAll t).Pairwise (fun m n => m.index < n.index) ∧
      (∀ m ∈ matchAll t, ∃ pre rest : String,
        t = pre ++ "(" ++ m.capture ++ ")" ++ rest ∧ m.index = pre.length)) ∧
    extractSets "(A) and (B) and (A)" = ["A", "B"] := by
  refine ⟨fun t => ⟨newSet_nodup _, newSet_sublist _, mem_extractSets t, ?_, ?_, ?_⟩, by decide⟩
  · intro i j a b hij ha hb
    exact ⟨newSet_indexOf_lt _ i j a b hij ha hb, extractSets_order t i j a b hij ha hb⟩
  · exact (matchAllFrom_index _ _ _).2
  · intro m hm
    obtain ⟨pre, rest, h1, h2, -⟩ := matchAll_sound t m hm
    exact ⟨pre, rest, h1, h2⟩

/-- Witness of claim C1 on the text `(B) x (A) (B)`: the labels are `B`, `A`, and the
first capture of `B` (position 0) comes before the only capture of `A`
(position 6). -/
theorem extractSets_first_seen_witness :
    extractSets "(B) x (A) (B)" = ["B", "A"] ∧
      ∃ ma ∈ matchAll "(B) x (A) (B)", ma.capture = "B" ∧
        ∀ mb ∈ matchAll "(B) x (A) (B)", mb.capture = "A" → ma.index < mb.index :=
  ⟨by decide,
    ((extractSets_first_seen.1 "(B) x (A) (B)").2.2.2.1 0 1 "B" "A" (by decide) (by decide)
      (by decide)).2⟩

/-- Claim C4: for every input text, every extracted label is a non-empty string
without `)` that stands in the text right after a `(` and right before a `)`;
the capture ends at the first `)` after the opening `(`, without any balance
check, so a label may contain `(`: the text `(a(b)c)` yields exactly `a(b`. -/
theorem extractSets_label_shape :
    (∀ t l : String, l ∈ extractSets t →
      l ≠ "" ∧ ')' ∉ l.data ∧ ∃ pre rest : String, t = pre ++ "(" ++ l ++ ")" ++ rest) ∧
    extractSets "(a(b)c)" = ["a(b"] ∧ '(' ∈ "a(b".data := by
  refine ⟨?_, by decide, by decide⟩
  intro t l hl
  obtain ⟨m, hm, rfl⟩ := (mem_extractSets t l).mp hl
  obtain ⟨pre, rest, h1, -, h3, h4, -⟩ := matchAll_sound t m hm
  exact ⟨h3, h4, pre, rest, h1⟩

/-- Witness of claim C4 on the text `x (a(b)c)`, whose only label is `a(b`. -/
theorem extractSets_label_shape_witness :
    "a(b" ∈ extractSets "x (a(b)c)" ∧
      ("a(b" ≠ "" ∧ ')' ∉ "a(b".data ∧
        ∃ pre rest : String, "x (a(b)c)" = pre ++ "(" ++ "a(b" ++ ")" ++ rest) :=
  ⟨by decide, extractSets_label_shape.1 "x (a(b)c)" "a(b" (by decide)⟩

/-! ## Rounding to doubles -/

theorem roundHalfEven_eq (x : ℚ) (m : ℤ) (h : |x - m| < 1 / 2) : roundHalfEven x = m := by
  rw [abs_lt] at h
  obtain ⟨h1, h2⟩ := h
  unfold roundHalfEven
  by_cases hm : (m : ℚ) ≤ x
  · have hf : ⌊x⌋ = m := Int.floor_eq_iff.mpr ⟨hm, by linarith⟩
    rw [hf, if_pos (by linarith)]
  · push_neg at hm
    have hf : ⌊x⌋ = m - 1 := Int.floor_eq_iff.mpr ⟨by push_cast; linarith, by push_cast; linarith⟩
    rw [hf]
    have h3 : ¬ (x - ((m - 1 : ℤ) : ℚ) < 1 / 2) := by push_cast; linarith
    have h4 : (1 : ℚ) / 2 < x - ((m - 1 : ℤ) : ℚ) := by push_cast; linarith
    rw [if_neg h3, if_pos h4]
    ring

theorem roundHalfEven_error (x : ℚ) : |(roundHalfEven x : ℚ) - x| ≤ 1 / 2 := by
  have h1 := Int.floor_le x
  have h2 := Int.lt_floor_add_one x
  unfold roundHalfEven
  rw [abs_le]
  split_ifs <;> push_cast <;> constructor <;> linarith

theorem log_abs_eq (q : ℚ) (e : ℤ) (h1 : (2 : ℚ) ^ e ≤ |q|) (h2 : |q| < 2 ^ (e + 1)) :
    Int.log 2 |q| = e := by
  have hpos : 0 < |q| := lt_of_lt_of_le (by positivity) h1
  apply le_antisymm
  · have := (Int.lt_zpow_iff_log_lt (b := 2) (by norm_num) hpos (x := e + 1)).mp (by exact_mod_cast h2)
    omega
  · exact (Int.zpow_le_iff_le_log (b := 2) (by norm_num) hpos).mp (by exact_mod_cast h1)

theorem roundDouble_eq (q : ℚ) (e m : ℤ) (h1 : (2 : ℚ) ^ e ≤ |q|) (h2 : |q| < 2 ^ (e + 1))
    (he : -1022 ≤ e) (hm : |q / 2 ^ (e - 52) - m| < 1 / 2) :
    roundDouble q = m * 2 ^ (e - 52) := by
  have hk : ulpExponent q = e - 52 := by
    unfold ulpExponent
    rw [log_abs_eq q e h1 h2]
    exact max_eq_left (by omega)
  unfold roundDouble
  rw [hk, roundHalfEven_eq _ m hm]

theorem roundDouble_eq_pos (q : ℚ) (e m : ℤ) (h1 : (2 : ℚ) ^ e ≤ q) (h2 : q < 2 ^ (e + 1))
    (he : -1022 ≤ e) (hm1 : (m : ℚ) - 1 / 2 < q / 2 ^ (e - 52))
    (hm2 : q / 2 ^ (e - 52) < (m : ℚ) + 1 / 2) :
    roundDouble q = m * 2 ^ (e - 52) := by
  have hpos : 0 < q := lt_of_lt_of_le (by positivity) h1
  have habs : |q| = q := abs_of_pos hpos
  exact roundDouble_eq q e m (by rw [habs]; exact h1) (by rw [habs]; exact h2) he
    (by rw [abs_lt]; constructor <;> linarith)

theorem roundHalfEven_tie (x : ℚ) (f : ℤ) (hx : x = f + 1 / 2) :
    roundHalfEven x = if f % 2 = 0 then f else f + 1 := by
  have hf : ⌊x⌋ = f := Int.floor_eq_iff.mpr ⟨by linarith, by linarith⟩
  unfold roundHalfEven
  rw [hf]
  have h1 : ¬ (x - (f : ℚ) < 1 / 2) := by linarith
  have h2 : ¬ ((1 : ℚ) / 2 < x - (f : ℚ)) := by linarith
  rw [if_neg h1, if_neg h2]

theorem roundDouble_tie_pos (q : ℚ) (e f m : ℤ) (h1 : (2 : ℚ) ^ e ≤ q) (h2 : q < 2 ^ (e + 1))
    (he : -1022 ≤ e) (hx : q / 2 ^ (e - 52) = f + 1 / 2)
    (hm : (if f % 2 = 0 then f else f + 1) = m) :
    roundDouble q = m * 2 ^ (e - 52) := by
  have hpos : 0 < q := lt_of_lt_of_le (by positivity) h1
  have habs : |q| = q := abs_of_pos hpos
  have hk : ulpExponent q = e - 52 := by
    unfold ulpExponent
    rw [log_abs_eq q e (by rw [habs]; exact h1) (by rw [habs]; exact h2)]
    exact max_eq_left (by omega)
  unfold roundDouble
  rw [hk, roundHalfEven_tie _ f hx, hm]

theorem rounding_aux (q s d t : ℚ) (hs : 0 ≤ s) (hd1 : -(1 / 2) ≤ d) (hd2 : d ≤ 1 / 2)
    (hsq : s ≤ q * t) : q * (1 - t / 2) ≤ q + d * s ∧ q + d * s ≤ q * (1 + t / 2) := by
  have hA : 0 ≤ (d + 1 / 2) * s := mul_nonneg (by linarith) hs
  have hB : 0 ≤ (1 / 2 - d) * s := mul_nonneg (by linarith) hs
  constructor
  · nlinarith
  · nlinarith

theorem roundDouble_bounds (q : ℚ) (hq : (2 : ℚ) ^ (-1022 : ℤ) ≤ q) :
    q * (1 - 2 ^ (-53 : ℤ)) ≤ roundDouble q ∧ roundDouble q ≤ q * (1 + 2 ^ (-53 : ℤ)) := by
  have hpos : 0 < q := lt_of_lt_of_le (by positivity) hq
  have habs : |q| = q := abs_of_pos hpos
  have hle : (2 : ℚ) ^ Int.log 2 q ≤ q := by
    have := Int.zpow_log_le_self (b := 2) (by norm_num) hpos
    exact_mod_cast this
  have he : -1022 ≤ Int.log 2 q :=
    (Int.zpow_le_iff_le_log (b := 2) (by norm_num) hpos).mp (by exact_mod_cast hq)
  have hk : ulpExponent q = Int.log 2 q - 52 := by
    unfold ulpExponent
    rw [habs]
    exact max_eq_left (by omega)
  have hs : (0 : ℚ) < 2 ^ (Int.log 2 q - 52) := by positivity
  have herr := roundHalfEven_error (q / 2 ^ (Int.log 2 q - 52))
  rw [abs_le] at herr
  have hsplit : (2 : ℚ) ^ (Int.log 2 q - 52) = 2 ^ Int.log 2 q * 2 ^ (-52 : ℤ) := by
    rw [← zpow_add₀ (by norm_num : (2 : ℚ) ≠ 0)]
    congr 1
  have hq2 : q = q / 2 ^ (Int.log 2 q - 52) * 2 ^ (Int.log 2 q - 52) := by
    field_simp
  have h53 : (2 : ℚ) ^ (-53 : ℤ) = 2 ^ (-52 : ℤ) / 2 := by norm_num
  have hsq : (2 : ℚ) ^ (Int.log 2 q - 52) ≤ q * 2 ^ (-52 : ℤ) := by
    rw [hsplit]
    exact mul_le_mul_of_nonneg_right hle (by positivity)
  have e1 : roundDouble q = q +
      ((roundHalfEven (q / 2 ^ (Int.log 2 q - 52)) : ℚ) - q / 2 ^ (Int.log 2 q - 52)) *
        2 ^ (Int.log 2 q - 52) := by
    unfold roundDouble
    rw [hk, sub_mul, ← hq2]; ring
  rw [e1, h53]
  exact rounding_aux q _ _ _ hs.le herr.1 herr.2 hsq

theorem roundDouble_literal :
    roundDouble 0.8 = 3602879701896397 / 4503599627370496 := by
  rw [roundDouble_eq_pos 0.8 (-1) 7205759403792794 (by norm_num) (by norm_num) (by norm_num)
    (by norm_num) (by norm_num)]
  norm_num


/-- The terms of `getVennPositions` for three circles, the literal `0.8` being the
double `3602879701896397 / 2 ^ 52`. -/
theorem positions_three (r : ℚ) :
    getVennPositions 3 r =
      [{ x := roundDouble (200 + roundDouble (roundDouble (r * (3602879701896397 / 4503599627370496)) / 2)), y := 200 },
       { x := 200, y := roundDouble (200 + roundDouble (roundDouble (r * (3602879701896397 / 4503599627370496)) * (3602879701896397 / 4503599627370496))) },
       { x := roundDouble (200 + roundDouble (r * (3602879701896397 / 4503599627370496))),
         y := roundDouble (200 + roundDouble (roundDouble (r * (3602879701896397 / 4503599627370496)) * (3602879701896397 / 4503599627370496))) }] := by
  unfold getVennPositions
  rw [roundDouble_literal]
  rfl

/-- The terms of `getVennPositions` for two circles. -/
theorem positions_two (r : ℚ) :
    getVennPositions 2 r =
      [{ x := 200, y := 200 }, { x := roundDouble (200 + roundDouble (r * (3602879701896397 / 4503599627370496))), y := 200 }] := by
  unfold getVennPositions
  rw [roundDouble_literal]
  rfl

/-- At the radius 200 of the program every rounded operation is exact. -/
theorem positions_three_200 :
    getVennPositions 3 200 =
      [{ x := 280, y := 200 }, { x := 200, y := 328 }, { x := 360, y := 328 }] := by
  have ho : roundDouble (200 * (3602879701896397 / 4503599627370496)) = 160 := by
    rw [roundDouble_eq_pos _ (7) 5629499534213120 (by norm_num) (by norm_num) (by norm_num)
      (by norm_num) (by norm_num)]
    norm_num
  have hh : roundDouble (160 / 2) = 80 := by
    rw [roundDouble_eq_pos _ (6) 5629499534213120 (by norm_num) (by norm_num) (by norm_num)
      (by norm_num) (by norm_num)]
    norm_num
  have hv : roundDouble (160 * (3602879701896397 / 4503599627370496)) = 128 := by
    rw [roundDouble_eq_pos _ (7) 4503599627370496 (by norm_num) (by norm_num) (by norm_num)
      (by norm_num) (by norm_num)]
    norm_num
  have hx0 : roundDouble (200 + 80) = 280 := by
    rw [roundDouble_eq_pos _ (8) 4925812092436480 (by norm_num) (by norm_num) (by norm_num)
      (by norm_num) (by norm_num)]
    norm_num
  have hy : roundDouble (200 + 128) = 328 := by
    rw [roundDouble_eq_pos _ (8) 5770237022568448 (by norm_num) (by norm_num) (by norm_num)
      (by norm_num) (by norm_num)]
    norm_num
  have hx2 : roundDouble (200 + 160) = 360 := by
    rw [roundDouble_eq_pos _ (8) 6333186975989760 (by norm_num) (by norm_num) (by norm_num)
      (by norm_num) (by norm_num)]
    norm_num
  rw [positions_three, ho, hh, hv, hx0, hy, hx2]

theorem positions_two_200 :
    getVennPositions 2 200 = [{ x := 200, y := 200 }, { x := 360, y := 200 }] := by
  have ho : roundDouble (200 * (3602879701896397 / 4503599627370496)) = 160 := by
    rw [roundDouble_eq_pos _ (7) 5629499534213120 (by norm_num) (by norm_num) (by norm_num)
      (by norm_num) (by norm_num)]
    norm_num
  have hx2 : roundDouble (200 + 160) = 360 := by
    rw [roundDouble_eq_pos _ (8) 6333186975989760 (by norm_num) (by norm_num) (by norm_num)
      (by norm_num) (by norm_num)]
    norm_num
  rw [positions_two, ho, hx2]

/-- The doubles computed at the radius 28. -/
theorem positions_three_28 :
    getVennPositions 3 28 =
      [{ x := (3715469692580659 / 17592186044416), y := 200 }, { x := 200, y := (3833689182799135 / 17592186044416) }, { x := (7825004352556237 / 35184372088832), y := (3833689182799135 / 17592186044416) }] := by
  have ho : roundDouble (28 * (3602879701896397 / 4503599627370496)) = (6305039478318695 / 281474976710656) := by
    rw [roundDouble_eq_pos _ (4) 6305039478318695 (by norm_num) (by norm_num) (by norm_num)
      (by norm_num) (by norm_num)]
    norm_num
  have hh : roundDouble ((6305039478318695 / 281474976710656) / 2) = (6305039478318695 / 562949953421312) := by
    rw [roundDouble_eq_pos _ (3) 6305039478318695 (by norm_num) (by norm_num) (by norm_num)
      (by norm_num) (by norm_num)]
    norm_num
  have hv : roundDouble ((6305039478318695 / 281474976710656) * (3602879701896397 / 4503599627370496)) = (1261007895663739 / 70368744177664) := by
    rw [roundDouble_eq_pos _ (4) 5044031582654956 (by norm_num) (by norm_num) (by norm_num)
      (by norm_num) (by norm_num)]
    norm_num
  have hx0 : roundDouble (200 + (6305039478318695 / 562949953421312)) = (3715469692580659 / 17592186044416) := by
    rw [roundDouble_eq_pos _ (7) 7430939385161318 (by norm_num) (by norm_num) (by norm_num)
      (by norm_num) (by norm_num)]
    norm_num
  have hy : roundDouble (200 + (1261007895663739 / 70368744177664)) = (3833689182799135 / 17592186044416) := by
    rw [roundDouble_tie_pos _ (7) 7667378365598269 7667378365598270 (by norm_num) (by norm_num) (by norm_num)
      (by norm_num) (by decide)]
    norm_num
  have hx2 : roundDouble (200 + (6305039478318695 / 281474976710656)) = (7825004352556237 / 35184372088832) := by
    rw [roundDouble_eq_pos _ (7) 7825004352556237 (by norm_num) (by norm_num) (by norm_num)
      (by norm_num) (by norm_num)]
    norm_num
  rw [positions_three, ho, hh, hv, hx0, hy, hx2]

/-- The doubles computed at the radius 164. -/
theorem positions_two_164 :
    getVennPositions 2 164 = [{ x := 200, y := 200 }, { x := (1456633004477645 / 4398046511104), y := 200 }] := by
  have ho : roundDouble (164 * (3602879701896397 / 4503599627370496)) = (4616189618054759 / 35184372088832) := by
    rw [roundDouble_eq_pos _ (7) 4616189618054759 (by norm_num) (by norm_num) (by norm_num)
      (by norm_num) (by norm_num)]
    norm_num
  have hx2 : roundDouble (200 + (4616189618054759 / 35184372088832)) = (1456633004477645 / 4398046511104) := by
    rw [roundDouble_tie_pos _ (8) 5826532017910579 5826532017910580 (by norm_num) (by norm_num) (by norm_num)
      (by norm_num) (by decide)]
    norm_num
  rw [positions_two, ho, hx2]

/-- The doubles computed at the radius `21 / 2 ^ 50`, about `1.87e-14`: the
offsets `0.4 r` and `0.64 r` are lost in the sums with 200, the offset `0.8 r`
becomes the last bit `2 ^ (-45)` of 200. -/
theorem positions_three_tiny :
    getVennPositions 3 (21 / 1125899906842624) =
      [{ x := 200, y := 200 }, { x := 200, y := 200 }, { x := (7036874417766401 / 35184372088832), y := 200 }] := by
  have ho : roundDouble ((21 / 1125899906842624) * (3602879701896397 / 4503599627370496)) = (4728779608739021 / 316912650057057350374175801344) := by
    rw [roundDouble_eq_pos _ (-46) 4728779608739021 (by norm_num) (by norm_num) (by norm_num)
      (by norm_num) (by norm_num)]
    norm_num
  have hh : roundDouble ((4728779608739021 / 316912650057057350374175801344) / 2) = (4728779608739021 / 633825300114114700748351602688) := by
    rw [roundDouble_eq_pos _ (-47) 4728779608739021 (by norm_num) (by norm_num) (by norm_num)
      (by norm_num) (by norm_num)]
    norm_num
  have hv : roundDouble ((4728779608739021 / 316912650057057350374175801344) * (3602879701896397 / 4503599627370496)) = (3783023686991217 / 316912650057057350374175801344) := by
    rw [roundDouble_eq_pos _ (-47) 7566047373982434 (by norm_num) (by norm_num) (by norm_num)
      (by norm_num) (by norm_num)]
    norm_num
  have hx0 : roundDouble (200 + (4728779608739021 / 633825300114114700748351602688)) = 200 := by
    rw [roundDouble_eq_pos _ (7) 7036874417766400 (by norm_num) (by norm_num) (by norm_num)
      (by norm_num) (by norm_num)]
    norm_num
  have hy : roundDouble (200 + (3783023686991217 / 316912650057057350374175801344)) = 200 := by
    rw [roundDouble_eq_pos _ (7) 7036874417766400 (by norm_num) (by norm_num) (by norm_num)
      (by norm_num) (by norm_num)]
    norm_num
  have hx2 : roundDouble (200 + (4728779608739021 / 316912650057057350374175801344)) = (7036874417766401 / 35184372088832) := by
    rw [roundDouble_eq_pos _ (7) 7036874417766401 (by norm_num) (by norm_num) (by norm_num)
      (by norm_num) (by norm_num)]
    norm_num
  rw [positions_three, ho, hh, hv, hx0, hy, hx2]

/-- The three coordinates computed for three circles are within `2 ^ (-50) * (200 + r)` of
`200 + 0.4 r`, `200 + 0.64 r` and `200 + 0.8 r`. -/
theorem rounded_offsets_bounds (r : ℚ) (h1 : (2 : ℚ) ^ (-1000 : ℤ) ≤ r) :
    |roundDouble (200 + roundDouble
        (roundDouble (r * (3602879701896397 / 4503599627370496)) / 2)) - (200 + 0.4 * r)|
      ≤ 2 ^ (-50 : ℤ) * (200 + r) ∧
    |roundDouble (200 + roundDouble
        (roundDouble (r * (3602879701896397 / 4503599627370496)) *
          (3602879701896397 / 4503599627370496))) - (200 + 0.64 * r)|
      ≤ 2 ^ (-50 : ℤ) * (200 + r) ∧
    |roundDouble (200 + roundDouble (r * (3602879701896397 / 4503599627370496)))
        - (200 + 0.8 * r)|
      ≤ 2 ^ (-50 : ℤ) * (200 + r) := by
  have hr : (0 : ℚ) < r := lt_of_lt_of_le (by positivity) h1
  have hsmall : (2 : ℚ) ^ (-1022 : ℤ) ≤ 2 ^ (-1000 : ℤ) / 8 := by norm_num
  have hlow : (2 : ℚ) ^ (-1022 : ℤ) ≤ r / 8 :=
    hsmall.trans ((div_le_div_iff_of_pos_right (by norm_num)).mpr h1)
  have u53 : (2 : ℚ) ^ (-53 : ℤ) = 1 / 9007199254740992 := by norm_num
  have u50 : (2 : ℚ) ^ (-50 : ℤ) = 1 / 1125899906842624 := by norm_num
  have bo := roundDouble_bounds (r * (3602879701896397 / 4503599627370496))
    (hlow.trans (by linarith))
  rw [u53] at bo
  generalize roundDouble (r * (3602879701896397 / 4503599627370496)) = o at bo ⊢
  have bh := roundDouble_bounds (o / 2) (hlow.trans (by linarith [bo.1]))
  have bv := roundDouble_bounds (o * (3602879701896397 / 4503599627370496))
    (hlow.trans (by linarith [bo.1]))
  rw [u53] at bh bv
  generalize roundDouble (o / 2) = h at bh ⊢
  generalize roundDouble (o * (3602879701896397 / 4503599627370496)) = v at bv ⊢
  have b0 := roundDouble_bounds (200 + h) (hlow.trans (by linarith [bh.1, bo.1]))
  have b1 := roundDouble_bounds (200 + v) (hlow.trans (by linarith [bv.1, bo.1]))
  have b2 := roundDouble_bounds (200 + o) (hlow.trans (by linarith [bo.1]))
  rw [u53] at b0 b1 b2
  rw [u50]
  generalize roundDouble (200 + h) = x0 at b0 ⊢
  generalize roundDouble (200 + v) = y at b1 ⊢
  generalize roundDouble (200 + o) = x2 at b2 ⊢
  clear h1 hsmall hlow u53 u50
  refine ⟨abs_le.mpr ⟨?_, ?_⟩, abs_le.mpr ⟨?_, ?_⟩, abs_le.mpr ⟨?_, ?_⟩⟩ <;>
    norm_num at bo bh bv b0 b1 b2 ⊢ <;> linarith [bo.1, bo.2, bh.1, bh.2, bv.1, bv.2,
      b0.1, b0.2, b1.1, b1.2, b2.1, b2.2]

/-! ## The layout table -/

/-- Counterexample to claim C5 as stated: at the radius 28 the second position
is `(200, 217.92000000000002)`, the double `3833689182799135 / 2 ^ 44`, which is
neither `200 + 0.64 * 28` nor the double nearest to it, but the next one. -/
theorem getVennPositions_three_not_exact :
    getVennPositions 3 28 ≠
      [{ x := 200 + 0.4 * 28, y := 200 }, { x := 200, y := 200 + 0.64 * 28 },
       { x := 200 + 0.8 * 28, y := 200 + 0.64 * 28 }] ∧
    (getVennPositions 3 28)[1]? =
      some { x := 200, y := 3833689182799135 / 17592186044416 } ∧
    (3833689182799135 / 17592186044416 : ℚ) - (200 + 0.64 * 28) = 7 / 439804651110400 ∧
    (3833689182799135 / 17592186044416 : ℚ) - roundDouble (200 + 0.64 * 28)
      = 1 / 35184372088832 := by
  have hn : roundDouble (200 + 0.64 * 28) = (7667378365598269 / 35184372088832) := by
    rw [roundDouble_eq_pos _ (7) 7667378365598269 (by norm_num) (by norm_num) (by norm_num)
      (by norm_num) (by norm_num)]
    norm_num
  refine ⟨?_, ?_, by norm_num, ?_⟩
  · rw [positions_three_28]
    intro h
    norm_num at h
  · rw [positions_three_28]
    rfl
  · rw [hn]
    norm_num

/-- Claim C5, amended: for `count = 3` and every radius `r`, `getVennPositions`
returns exactly three positions `(x0, 200)`, `(200, y)`, `(x2, y)`, where `x0`,
`y` and `x2` are the doubles computed as `200 + (r * 0.8) / 2`,
`200 + (r * 0.8) * 0.8` and `200 + r * 0.8`, every operation and the literal
`0.8` being rounded; for a radius between `2 ^ (-1000)` and `2 ^ 1000` they are
within `2 ^ (-50) * (200 + r)` of `200 + 0.4 r`, `200 + 0.64 r` and
`200 + 0.8 r`.  For `r = 200` the result is exactly `(280, 200)`, `(200, 328)`,
`(360, 328)`. -/
theorem getVennPositions_three_rounded :
    (∀ r : ℚ, ∃ x0 y x2 : ℚ,
      getVennPositions 3 r =
        [{ x := x0, y := 200 }, { x := 200, y := y }, { x := x2, y := y }] ∧
      x0 = roundDouble (200 + roundDouble (roundDouble (r * roundDouble 0.8) / 2)) ∧
      y = roundDouble
        (200 + roundDouble (roundDouble (r * roundDouble 0.8) * roundDouble 0.8)) ∧
      x2 = roundDouble (200 + roundDouble (r * roundDouble 0.8)) ∧
      ((2 : ℚ) ^ (-1000 : ℤ) ≤ r → r ≤ 2 ^ (1000 : ℤ) →
        |x0 - (200 + 0.4 * r)| ≤ 2 ^ (-50 : ℤ) * (200 + r) ∧
        |y - (200 + 0.64 * r)| ≤ 2 ^ (-50 : ℤ) * (200 + r) ∧
        |x2 - (200 + 0.8 * r)| ≤ 2 ^ (-50 : ℤ) * (200 + r))) ∧
    roundDouble 0.8 = 3602879701896397 / 4503599627370496 ∧
    getVennPositions 3 200 =
      [{ x := 280, y := 200 }, { x := 200, y := 328 }, { x := 360, y := 328 }] := by
  refine ⟨fun r => ?_, roundDouble_literal, positions_three_200⟩
  refine ⟨roundDouble (200 + roundDouble (roundDouble (r * roundDouble 0.8) / 2)),
    roundDouble (200 + roundDouble (roundDouble (r * roundDouble 0.8) * roundDouble 0.8)),
    roundDouble (200 + roundDouble (r * roundDouble 0.8)), ?_, rfl, rfl, rfl, ?_⟩
  · rw [roundDouble_literal]
    exact positions_three r
  · intro h1 _
    rw [roundDouble_literal]
    exact rounded_offsets_bounds r h1

/-- Witness of claim C5, amended, at the radius 200: the three coordinates are
the exact values. -/
theorem getVennPositions_three_rounded_witness :
    ∃ x0 y x2 : ℚ,
      getVennPositions 3 200 =
        [{ x := x0, y := 200 }, { x := 200, y := y }, { x := x2, y := y }] ∧
      |x0 - (200 + 0.4 * 200)| ≤ 2 ^ (-50 : ℤ) * (200 + 200) ∧
      |y - (200 + 0.64 * 200)| ≤ 2 ^ (-50 : ℤ) * (200 + 200) ∧
      |x2 - (200 + 0.8 * 200)| ≤ 2 ^ (-50 : ℤ) * (200 + 200) := by
  obtain ⟨x0, y, x2, h, -, -, -, hb⟩ := getVennPositions_three_rounded.1 200
  exact ⟨x0, y, x2, h, hb (by norm_num) (by norm_num)⟩

/-- Counterexample to claim C6 as stated: at the radius 164 the second position
is `(331.20000000000005, 200)`, the double `1456633004477645 / 2 ^ 42`, which is
neither `200 + 0.8 * 164` nor the double nearest to it, but the next one. -/
theorem getVennPositions_two_not_exact :
    getVennPositions 2 164 ≠
      [{ x := 200, y := 200 }, { x := 200 + 0.8 * 164, y := 200 }] ∧
    (getVennPositions 2 164)[1]? =
      some { x := 1456633004477645 / 4398046511104, y := 200 } ∧
    (1456633004477645 / 4398046511104 : ℚ) - (200 + 0.8 * 164) = 1 / 21990232555520 ∧
    (1456633004477645 / 4398046511104 : ℚ) - roundDouble (200 + 0.8 * 164)
      = 1 / 17592186044416 := by
  have hn : roundDouble (200 + 0.8 * 164) = (5826532017910579 / 17592186044416) := by
    rw [roundDouble_eq_pos _ (8) 5826532017910579 (by norm_num) (by norm_num) (by norm_num)
      (by norm_num) (by norm_num)]
    norm_num
  refine ⟨?_, ?_, by norm_num, ?_⟩
  · rw [positions_two_164]
    intro h
    norm_num at h
  · rw [positions_two_164]
    rfl
  · rw [hn]
    norm_num

/-- Claim C6, amended: for `count = 2` and every radius `r`, `getVennPositions`
returns exactly two positions, `(200, 200)` and `(x, 200)`, at the same vertical
position, where `x` is the double computed as `200 + r * 0.8`, the product, the
sum and the literal `0.8` being rounded; for a radius between `2 ^ (-1000)` and
`2 ^ 1000` it is within `2 ^ (-50) * (200 + r)` of `200 + 0.8 r`.  For `r = 200`
the result is exactly `(200, 200)`, `(360, 200)`. -/
theorem getVennPositions_two_rounded :
    (∀ r : ℚ, ∃ x : ℚ,
      getVennPositions 2 r = [{ x := 200, y := 200 }, { x := x, y := 200 }] ∧
      x = roundDouble (200 + roundDouble (r * roundDouble 0.8)) ∧
      ((2 : ℚ) ^ (-1000 : ℤ) ≤ r → r ≤ 2 ^ (1000 : ℤ) →
        |x - (200 + 0.8 * r)| ≤ 2 ^ (-50 : ℤ) * (200 + r))) ∧
    roundDouble 0.8 = 3602879701896397 / 4503599627370496 ∧
    getVennPositions 2 200 = [{ x := 200, y := 200 }, { x := 360, y := 200 }] := by
  refine ⟨fun r => ?_, roundDouble_literal, positions_two_200⟩
  refine ⟨roundDouble (200 + roundDouble (r * roundDouble 0.8)), ?_, rfl, ?_⟩
  · rw [roundDouble_literal]
    exact positions_two r
  · intro h1 _
    rw [roundDouble_literal]
    exact (rounded_offsets_bounds r h1).2.2

/-- Witness of claim C6, amended, at the radius 200. -/
theorem getVennPositions_two_rounded_witness :
    ∃ x : ℚ,
      getVennPositions 2 200 = [{ x := 200, y := 200 }, { x := x, y := 200 }] ∧
      |x - (200 + 0.8 * 200)| ≤ 2 ^ (-50 : ℤ) * (200 + 200) := by
  obtain ⟨x, h, -, hb⟩ := getVennPositions_two_rounded.1 200
  exact ⟨x, h, hb (by norm_num) (by norm_num)⟩

theorem getVennPositions_fallback (count : Nat) (h2 : count ≠ 2) (h3 : count ≠ 3) (r : ℚ) :
    getVennPositions count r =
      (List.range count).map
        (fun (i : Nat) => { x := 200 + ((i : ℚ) * 50), y := 200 + ((i : ℚ) * 50) }) := by
  simp only [getVennPositions, if_neg h2, if_neg h3]

/-- Claim C7: for every count other than 2 and 3 and every radius `r`,
`getVennPositions` returns the cascade: it has `count` positions, position `i`
is `(200 + 50 i, 200 + 50 i)` for each `i < count`, and the result does not
depend on `r`. -/
theorem getVennPositions_cascade (count : Nat) (h2 : count ≠ 2) (h3 : count ≠ 3) (r : ℚ) :
    (getVennPositions count r).length = count ∧
    (∀ i : Nat, i < count →
      (getVennPositions count r)[i]? =
        some { x := 200 + 50 * (i : ℚ), y := 200 + 50 * (i : ℚ) }) ∧
    (∀ i : Nat, count ≤ i → (getVennPositions count r)[i]? = none) ∧
    ∀ r2 : ℚ, getVennPositions count r2 = getVennPositions count r := by
  rw [getVennPositions_fallback count h2 h3 r]
  refine ⟨by simp, ?_, ?_, ?_⟩
  · intro i hi
    rw [List.getElem?_map, List.getElem?_range hi]
    simp only [Option.map_some', Option.some.injEq, Position.mk.injEq]
    constructor <;> ring
  · intro i hi
    rw [List.getElem?_eq_none_iff]
    simpa using hi
  · intro r2
    exact getVennPositions_fallback count h2 h3 r2

/-- Witness of claim C7 at `count = 4`, radius 200: four positions, the last one
`(350, 350)`. -/
theorem getVennPositions_cascade_witness :
    (getVennPositions 4 200).length = 4 ∧
    (∀ i : Nat, i < 4 →
      (getVennPositions 4 200)[i]? =
        some { x := 200 + 50 * (i : ℚ), y := 200 + 50 * (i : ℚ) }) ∧
    (∀ i : Nat, 4 ≤ i → (getVennPositions 4 200)[i]? = none) ∧
    ∀ r2 : ℚ, getVennPositions 4 r2 = getVennPositions 4 200 :=
  getVennPositions_cascade 4 (by decide) (by decide) 200

/-- Claim C8: for every count and every radius, the sequence returned by
`getVennPositions` has exactly `count` entries. -/
theorem getVennPositions_length (count : Nat) (r : ℚ) :
    (getVennPositions count r).length = count := by
  by_cases h2 : count = 2
  · subst h2; simp [getVennPositions]
  · by_cases h3 : count = 3
    · subst h3; simp [getVennPositions]
    · rw [getVennPositions_fallback count h2 h3 r]; simp

/-! ## The children of the logical root -/

theorem root_eq (sets : List String) :
    (generateDrawIoXml sets).root =
      [{ id := "0", value := none, style := none, parent := none, vertex := none,
         geometry := none },
       { id := "1", value := none, style := none, parent := some "0", vertex := none,
         geometry := none }]
      ++ sets.mapIdx (entityCell (getVennPositions sets.length 200) 400 400 50)
      ++ (if overlayApplies sets then texts.map textCell else []) := by
  have e : (200 : ℚ) * 2 = 400 := by norm_num
  simp only [generateDrawIoXml, e]

theorem root_length (sets : List String) :
    (generateDrawIoXml sets).root.length =
      2 + sets.length + (if overlayApplies sets then 7 else 0) := by
  rw [root_eq]
  split <;> simp [texts] <;> omega

theorem root_entity (sets : List String) (i : Nat) :
    (generateDrawIoXml sets).root[2 + i]? =
      if i < sets.length then
        sets[i]?.map (entityCell (getVennPositions sets.length 200) 400 400 50 i)
      else (if overlayApplies sets then texts.map textCell else [])[i - sets.length]? := by
  rw [root_eq, List.append_assoc, List.getElem?_append_right (by simp)]
  simp only [List.length_cons, List.length_nil, Nat.add_sub_cancel_left]
  by_cases h : i < sets.length
  · rw [if_pos h, List.getElem?_append_left (by simpa using h), List.getElem?_mapIdx]
  · rw [if_neg h, List.getElem?_append_right (by simpa using h), List.length_mapIdx]

theorem root_drop (sets : List String) :
    (generateDrawIoXml sets).root.drop (2 + sets.length) =
      if overlayApplies sets then texts.map textCell else [] := by
  rw [root_eq, List.append_assoc, List.drop_append_eq_append_drop]
  simp

/-! ## The overlay test -/

theorem comma_split (a r a2 r2 : List Char) (ha : ',' ∉ a) (ha2 : ',' ∉ a2)
    (h : a ++ ',' :: r = a2 ++ ',' :: r2) : a = a2 ∧ r = r2 := by
  have hp : ∀ l : List Char, ',' ∉ l → ∀ x ∈ l, (fun c : Char => c != ',') x = true := by
    intro l hl x hx
    have : x ≠ ',' := fun e => hl (e ▸ hx)
    simpa using this
  have h1 := congrArg (List.takeWhile (fun c : Char => c != ',')) h
  have h2 := congrArg (List.dropWhile (fun c : Char => c != ',')) h
  rw [List.takeWhile_append_of_pos (hp a ha), List.takeWhile_append_of_pos (hp a2 ha2)] at h1
  rw [List.dropWhile_append_of_pos (hp a ha), List.dropWhile_append_of_pos (hp a2 ha2)] at h2
  simp at h1 h2
  exact ⟨h1, h2⟩

theorem join_three (a b c : String) (h : join "," [a, b, c] = "Angular,React,Vue") :
    a = "Angular" ∧ b = "React" ∧ c = "Vue" := by
  have hd : a.data ++ ',' :: (b.data ++ ',' :: c.data) = "Angular,React,Vue".data := by
    rw [← h]
    simp [join, String.intercalate, String.intercalate.go]
  have hcount := congrArg (List.count ',') hd
  have htarget : List.count ',' "Angular,React,Vue".data = 2 := by decide
  rw [htarget] at hcount
  simp only [List.count_append, List.count_cons_self] at hcount
  have ha : ',' ∉ a.data := List.count_eq_zero.mp (by omega)
  have hb : ',' ∉ b.data := List.count_eq_zero.mp (by omega)
  have hc : ',' ∉ c.data := List.count_eq_zero.mp (by omega)
  have e1 : "Angular,React,Vue".data = "Angular".data ++ ',' :: "React,Vue".data := by decide
  have e2 : "React,Vue".data = "React".data ++ ',' :: "Vue".data := by decide
  rw [e1] at hd
  obtain ⟨h1, h2⟩ := comma_split _ _ _ _ ha (by decide) hd
  rw [e2] at h2
  obtain ⟨h3, h4⟩ := comma_split _ _ _ _ hb (by decide) h2
  exact ⟨String.ext h1, String.ext h3, String.ext h4⟩

/-- The test of the overlay holds exactly for the six orders of the three
names. -/
theorem overlayApplies_iff (sets : List String) :
    overlayApplies sets = true ↔ sets.Perm ["Angular", "React", "Vue"] := by
  constructor
  · intro h
    simp only [overlayApplies, Bool.and_eq_true, beq_iff_eq] at h
    obtain ⟨hlen, hjoin⟩ := h
    have hperm : (sort sets).Perm sets := List.perm_insertionSort _ sets
    have hl : (sort sets).length = 3 := by rw [hperm.length_eq]; exact hlen
    match hs : sort sets, hl with
    | [a, b, c], _ =>
      rw [hs] at hjoin hperm
      obtain ⟨rfl, rfl, rfl⟩ := join_three a b c hjoin
      exact hperm.symm
  · intro h
    have hlen := h.length_eq
    match sets, hlen with
    | [a, b, c], _ =>
      have ha : a ∈ ["Angular", "React", "Vue"] := h.subset (by simp)
      have hb : b ∈ ["Angular", "React", "Vue"] := h.subset (by simp)
      have hc : c ∈ ["Angular", "React", "Vue"] := h.subset (by simp)
      simp only [List.mem_cons, List.mem_singleton, List.not_mem_nil, or_false] at ha hb hc
      rcases ha with rfl | rfl | rfl <;> rcases hb with rfl | rfl | rfl <;>
        rcases hc with rfl | rfl | rfl <;>
        first
          | decide
          | (exfalso; revert h; decide)

/-! ## The claims on the document -/

/-- Claim C2: for every list of labels given to `generateDrawIoXml`, the overlay
cells are emitted if and only if the list is a permutation of `Angular`,
`React`, `Vue` (exact string equality): then exactly 7 text cells follow the
circle cells, with ids `unique_react`, `unique_angular`, `unique_vue`,
`react_angular`, `react_vue`, `angular_vue`, `all`; otherwise no cell follows
them, as for `Vue, React, Svelte`, for `angular, react, vue` and for lists of
another length. -/
theorem overlay_iff_permutation :
    (∀ sets : List String,
      (overlayApplies sets = true ↔ sets.Perm ["Angular", "React", "Vue"]) ∧
      (sets.Perm ["Angular", "React", "Vue"] →
        ((generateDrawIoXml sets).root.drop (2 + sets.length)).map (fun c => c.id) =
          ["unique_react", "unique_angular", "unique_vue", "react_angular", "react_vue",
            "angular_vue", "all"] ∧
        (∀ c ∈ (generateDrawIoXml sets).root.drop (2 + sets.length),
          c.style = some "text;html=1;verticalAlign=top;whiteSpace=wrap;fontSize=12;") ∧
        (generateDrawIoXml sets).root.length = 2 + sets.length + 7) ∧
      (¬ sets.Perm ["Angular", "React", "Vue"] →
        (generateDrawIoXml sets).root.drop (2 + sets.length) = [] ∧
        (generateDrawIoXml sets).root.length = 2 + sets.length)) ∧
    (generateDrawIoXml ["Vue", "React", "Angular"]).root.length = 12 ∧
    (generateDrawIoXml ["Vue", "React", "Svelte"]).root.length = 5 ∧
    (generateDrawIoXml ["angular", "react", "vue"]).root.length = 5 ∧
    (generateDrawIoXml ["Angular", "React"]).root.length = 4 ∧
    (generateDrawIoXml ["Angular", "React", "Vue", "Vue"]).root.length = 6 := by
  refine ⟨fun sets => ⟨overlayApplies_iff sets, ?_, ?_⟩, ?_, ?_, ?_, ?_, ?_⟩
  · intro h
    have ho := (overlayApplies_iff sets).mpr h
    rw [root_drop, root_length, if_pos ho, if_pos ho]
    exact ⟨by decide, by decide, rfl⟩
  · intro h
    have ho : ¬ overlayApplies sets = true := fun e => h ((overlayApplies_iff sets).mp e)
    rw [root_drop, root_length, if_neg ho, if_neg ho]
    exact ⟨rfl, rfl⟩
  all_goals rw [root_length]; decide

/-- Witness of claim C2 on the order `Vue, Angular, React`. -/
theorem overlay_iff_permutation_witness :
    ((generateDrawIoXml ["Vue", "Angular", "React"]).root.drop (2 + 3)).map (fun c => c.id) =
        ["unique_react", "unique_angular", "unique_vue", "react_angular", "react_vue",
          "angular_vue", "all"] ∧
      (∀ c ∈ (generateDrawIoXml ["Vue", "Angular", "React"]).root.drop (2 + 3),
        c.style = some "text;html=1;verticalAlign=top;whiteSpace=wrap;fontSize=12;") ∧
      (generateDrawIoXml ["Vue", "Angular", "React"]).root.length = 2 + 3 + 7 :=
  (overlay_iff_permutation.1 ["Vue", "Angular", "React"]).2.1 (by decide)

/-- Claim C3: for every list of `n` labels, the logical root built by
`generateDrawIoXml` holds, in this order: the cell with id `0`, the cell with id
`1` and parent `0`, then for each `i < n` a cell with id `entity_i`, the `i`-th
label of the input as value and parent `1`, then the overlay cells when the
overlay applies: `2 + n` cells, or `2 + n + 7`.  The text
`Entities: (React) (Angular) (Vue)` gives `entity_0`, `entity_1`, `entity_2` with
values `React`, `Angular`, `Vue`, in this order, and 12 cells. -/
theorem generateDrawIoXml_root :
    (∀ sets : List String,
      (generateDrawIoXml sets).root[0]? =
        some { id := "0", value := none, style := none, parent := none, vertex := none,
               geometry := none } ∧
      (generateDrawIoXml sets).root[1]? =
        some { id := "1", value := none, style := none, parent := some "0", vertex := none,
               geometry := none } ∧
      (∀ (i : Nat) (lbl : String), sets[i]? = some lbl →
        ∃ c, (generateDrawIoXml sets).root[2 + i]? = some c ∧
          c.id = "entity_" ++ toString i ∧ c.value = some lbl ∧ c.parent = some "1") ∧
      (generateDrawIoXml sets).root.drop (2 + sets.length) =
        (if overlayApplies sets then texts.map textCell else []) ∧
      (generateDrawIoXml sets).root.length =
        2 + sets.length + (if overlayApplies sets then 7 else 0)) ∧
    extractSets "Entities: (React) (Angular) (Vue)" = ["React", "Angular", "Vue"] ∧
    (generateDrawIoXml (extractSets "Entities: (React) (Angular) (Vue)")).root.map
        (fun c => (c.id, c.value, c.parent)) =
      [("0", none, none), ("1", none, some "0"),
       ("entity_0", some "React", some "1"), ("entity_1", some "Angular", some "1"),
       ("entity_2", some "Vue", some "1"),
       ("unique_react", some "Virtual DOM\nJSX", some "1"),
       ("unique_angular", some "Two-way binding\nDependency injection", some "1"),
       ("unique_vue", some "Reactive data\nSingle-file components", some "1"),
       ("react_angular", some "Component-based\nTypeScript", some "1"),
       ("react_vue", some "Virtual DOM\nReactivity", some "1"),
       ("angular_vue", some "Directives\nTemplates", some "1"),
       ("all", some "JavaScript\nSPA", some "1")] ∧
    (generateDrawIoXml (extractSets "Entities: (React) (Angular) (Vue)")).root.length = 12 := by
  refine ⟨fun sets => ⟨?_, ?_, ?_, root_drop sets, root_length sets⟩, by decide, by decide,
    by decide⟩
  · rw [root_eq, List.append_assoc, List.cons_append, List.getElem?_cons_zero]
  · rw [root_eq, List.append_assoc, List.cons_append, List.cons_append,
      List.getElem?_cons_succ, List.getElem?_cons_zero]
  · intro i lbl h
    have hi : i < sets.length := (List.getElem?_eq_some_iff.mp h).1
    rw [root_entity, if_pos hi, h]
    exact ⟨_, rfl, rfl, rfl, rfl⟩

/-- Witness of claim C3 on the labels `B`, `A`: the cell at place 3 is `entity_1`
with value `A`. -/
theorem generateDrawIoXml_root_witness :
    ∃ c, (generateDrawIoXml ["B", "A"]).root[2 + 1]? = some c ∧
      c.id = "entity_" ++ toString 1 ∧ c.value = some "A" ∧ c.parent = some "1" :=
  (generateDrawIoXml_root.1 ["B", "A"]).2.2.1 1 "A" (by decide)

/-- Claim C9: for every list of labels and every index `i` in it, the circle cell
`entity_i` has the fill colour at place `i mod 3` of `#f8cecc`, `#dae8fc`,
`#d5e8d4` and the stroke colour at place `i mod 3` of `#b85450`, `#6c8ebf`,
`#82b366`, with opacity 50, `fontStyle=1`, `fontSize=20`, and a geometry of width
and height 400, twice the radius 200; the cell at index `i + 3`, when there is
one, has the same style. -/
theorem entity_cell_style (sets : List String) (i : Nat) (h : i < sets.length) :
    ∃ (c : MxCell) (g : MxGeometry) (color stroke : String),
      (generateDrawIoXml sets).root[2 + i]? = some c ∧
      c.id = "entity_" ++ toString i ∧
      ["#f8cecc", "#dae8fc", "#d5e8d4"][i % 3]? = some color ∧
      ["#b85450", "#6c8ebf", "#82b366"][i % 3]? = some stroke ∧
      c.style = some ("ellipse;whiteSpace=wrap;html=1;fillColor=" ++ color ++ ";strokeColor="
        ++ stroke ++ ";opacity=50;fontStyle=1;fontSize=20;") ∧
      c.geometry = some g ∧ g.width = 400 ∧ g.height = 400 ∧ g.width = 2 * 200 ∧
      (i + 3 < sets.length →
        ∃ c3 g3, (generateDrawIoXml sets).root[2 + (i + 3)]? = some c3 ∧ c3.style = c.style ∧
          c3.geometry = some g3 ∧ g3.width = g.width ∧ g3.height = g.height) := by
  obtain ⟨lbl, hl⟩ : ∃ lbl, sets[i]? = some lbl :=
    ⟨sets[i], List.getElem?_eq_getElem h⟩
  have hmod : (i + 3) % 3 = i % 3 := Nat.add_mod_right i 3
  have hk : i % 3 = 0 ∨ i % 3 = 1 ∨ i % 3 = 2 := by omega
  have h50 : toString 50 = "50" := by decide
  have hg : ∀ (l : String) (k : Nat), ∃ g,
      (entityCell (getVennPositions sets.length 200) 400 400 50 k l).geometry = some g ∧
        g.width = 400 ∧ g.height = 400 := fun l k => ⟨_, rfl, rfl, rfl⟩
  obtain ⟨g, hg1, hg2, hg3⟩ := hg lbl i
  refine ⟨entityCell (getVennPositions sets.length 200) 400 400 50 i lbl, g,
    colors.getD (i % 3) "undefined", strokes.getD (i % 3) "undefined", ?_, rfl,
    ?_, ?_, ?_, hg1, hg2, hg3, by rw [hg2]; norm_num, ?_⟩
  · rw [root_entity, if_pos h, hl]; rfl
  · rcases hk with e | e | e <;> rw [e] <;> rfl
  · rcases hk with e | e | e <;> rw [e] <;> rfl
  · have e3 : ∀ X : String, X ++ ";opacity=" ++ "50" ++ ";fontStyle=1;fontSize=20;" =
        X ++ ";opacity=50;fontStyle=1;fontSize=20;" := by
      intro X
      rw [String.append_assoc, String.append_assoc]
      congr 1
    simp only [entityCell, h50, e3]
    rfl
  · intro h3
    obtain ⟨lbl3, hl3⟩ : ∃ lbl, sets[i + 3]? = some lbl :=
      ⟨sets[i + 3], List.getElem?_eq_getElem h3⟩
    obtain ⟨g3, hg4, hg5, hg6⟩ := hg lbl3 (i + 3)
    refine ⟨entityCell (getVennPositions sets.length 200) 400 400 50 (i + 3) lbl3, g3,
      ?_, ?_, hg4, by rw [hg5, hg2], by rw [hg6, hg3]⟩
    · rw [root_entity, if_pos h3, hl3]; rfl
    · simp only [entityCell]
      have e1 : colors.length = 3 := rfl
      have e2 : strokes.length = 3 := rfl
      rw [e1, e2, hmod]

/-- Witness of claim C9 on four labels, at index 0: the cell `entity_0` and the cell
`entity_3` share the first colours of the palettes. -/
theorem entity_cell_style_witness :
    ∃ (c : MxCell) (g : MxGeometry) (color stroke : String),
      (generateDrawIoXml ["a", "b", "c", "d"]).root[2 + 0]? = some c ∧
      c.id = "entity_" ++ toString 0 ∧
      ["#f8cecc", "#dae8fc", "#d5e8d4"][0 % 3]? = some color ∧
      ["#b85450", "#6c8ebf", "#82b366"][0 % 3]? = some stroke ∧
      c.style = some ("ellipse;whiteSpace=wrap;html=1;fillColor=" ++ color ++ ";strokeColor="
        ++ stroke ++ ";opacity=50;fontStyle=1;fontSize=20;") ∧
      c.geometry = some g ∧ g.width = 400 ∧ g.height = 400 ∧ g.width = 2 * 200 ∧
      (0 + 3 < ["a", "b", "c", "d"].length →
        ∃ c3 g3, (generateDrawIoXml ["a", "b", "c", "d"]).root[2 + (0 + 3)]? = some c3 ∧
          c3.style = c.style ∧
          c3.geometry = some g3 ∧ g3.width = g.width ∧ g3.height = g.height) :=
  entity_cell_style ["a", "b", "c", "d"] 0 (by decide)

/-- Claim C10: for every input text without the character `(`, such as
`no parens here`, no label is extracted, and `generateDrawIoXml` on the empty
sequence builds a document whose logical root holds exactly the two structural
cells, id `0` and id `1` with parent `0`, and no other cell. -/
theorem no_parenthesis_document :
    (∀ t : String, '(' ∉ t.data →
      matchAll t = [] ∧ extractSets t = [] ∧
      (generateDrawIoXml (extractSets t)).root =
        [{ id := "0", value := none, style := none, parent := none, vertex := none,
           geometry := none },
         { id := "1", value := none, style := none, parent := some "0", vertex := none,
           geometry := none }]) ∧
    extractSets "no parens here" = [] ∧
    (generateDrawIoXml []).root =
      [{ id := "0", value := none, style := none, parent := none, vertex := none,
         geometry := none },
       { id := "1", value := none, style := none, parent := some "0", vertex := none,
         geometry := none }] := by
  have hnil : (generateDrawIoXml []).root =
      [{ id := "0", value := none, style := none, parent := none, vertex := none,
         geometry := none },
       { id := "1", value := none, style := none, parent := some "0", vertex := none,
         geometry := none }] := by
    rw [root_eq]; rfl
  refine ⟨fun t ht => ?_, by decide, hnil⟩
  have hm : matchAll t = [] := matchAllFrom_eq_nil _ _ _ ht
  have he : extractSets t = [] := by
    unfold extractSets
    rw [hm]; rfl
  exact ⟨hm, he, by rw [he]; exact hnil⟩

/-- Witness of claim C10 on the text `no parens here`. -/
theorem no_parenthesis_document_witness :
    matchAll "no parens here" = [] ∧ extractSets "no parens here" = [] ∧
      (generateDrawIoXml (extractSets "no parens here")).root =
        [{ id := "0", value := none, style := none, parent := none, vertex := none,
           geometry := none },
         { id := "1", value := none, style := none, parent := some "0", vertex := none,
           geometry := none }] :=
  no_parenthesis_document.1 "no parens here" (by decide)

/-! ## The geometry of the three circle layout -/

theorem sq_sum_lt (dx dy r : ℚ) (hr : 0 < r) (hx : |dx| ≤ r / 2) (hy : |dy| ≤ r / 2) :
    dx ^ 2 + dy ^ 2 < r ^ 2 := by
  rw [abs_le] at hx hy
  nlinarith [mul_nonneg (sub_nonneg.2 hx.2) (by linarith [hx.1] : (0 : ℚ) ≤ dx + r / 2),
    mul_nonneg (sub_nonneg.2 hy.2) (by linarith [hy.1] : (0 : ℚ) ≤ dy + r / 2),
    mul_pos hr hr]

theorem sq_sum_lt_double (dx dy r : ℚ) (hr : 0 < r) (hx : |dx| ≤ r) (hy : |dy| ≤ r) :
    dx ^ 2 + dy ^ 2 < (2 * r) ^ 2 := by
  rw [abs_le] at hx hy
  nlinarith [mul_nonneg (sub_nonneg.2 hx.2) (by linarith [hx.1] : (0 : ℚ) ≤ dx + r),
    mul_nonneg (sub_nonneg.2 hy.2) (by linarith [hy.1] : (0 : ℚ) ≤ dy + r),
    mul_pos hr hr]

/-- Counterexample to claim C11 as stated: the radius `21 / 2 ^ 50`, about
`1.87e-14`, is a positive double; `getVennPositions` puts the three boxes at
`(200, 200)`, `(200, 200)` and `(200 + 2 ^ (-45), 200)`, and the centroid of the
three centres is not inside the third circle: it is `2 ^ (-44) / 3` away from
its centre, more than the radius. -/
theorem three_circles_tiny_radius :
    (0 : ℚ) < 21 / 1125899906842624 ∧
    roundDouble (21 / 1125899906842624) = 21 / 1125899906842624 ∧
    getVennPositions 3 (21 / 1125899906842624) =
      [{ x := 200, y := 200 }, { x := 200, y := 200 },
       { x := 7036874417766401 / 35184372088832, y := 200 }] ∧
    ¬ insideCircle
      (circleCentre { x := 7036874417766401 / 35184372088832, y := 200 }
        (21 / 1125899906842624))
      (21 / 1125899906842624)
      (centroid (circleCentre { x := 200, y := 200 } (21 / 1125899906842624))
        (circleCentre { x := 200, y := 200 } (21 / 1125899906842624))
        (circleCentre { x := 7036874417766401 / 35184372088832, y := 200 }
          (21 / 1125899906842624))) := by
  have hr : roundDouble (21 / 1125899906842624) = (21 / 1125899906842624) := by
    rw [roundDouble_eq_pos _ (-46) 5910974510923776 (by norm_num) (by norm_num) (by norm_num)
      (by norm_num) (by norm_num)]
    norm_num
  refine ⟨by norm_num, hr, positions_three_tiny, ?_⟩
  simp only [insideCircle, distSq, centroid, circleCentre]
  norm_num

theorem centroid_inside_of_bounds (r x0 y x2 : ℚ) (h1 : 1 / 1073741824 ≤ r)
    (b0 : |x0 - (200 + 0.4 * r)| ≤ 1 / 1125899906842624 * (200 + r))
    (b1 : |y - (200 + 0.64 * r)| ≤ 1 / 1125899906842624 * (200 + r))
    (b2 : |x2 - (200 + 0.8 * r)| ≤ 1 / 1125899906842624 * (200 + r)) :
    insideCircle (circleCentre { x := x0, y := 200 } r) r
        (centroid (circleCentre { x := x0, y := 200 } r) (circleCentre { x := 200, y := y } r)
          (circleCentre { x := x2, y := y } r)) ∧
      insideCircle (circleCentre { x := 200, y := y } r) r
        (centroid (circleCentre { x := x0, y := 200 } r) (circleCentre { x := 200, y := y } r)
          (circleCentre { x := x2, y := y } r)) ∧
      insideCircle (circleCentre { x := x2, y := y } r) r
        (centroid (circleCentre { x := x0, y := 200 } r) (circleCentre { x := 200, y := y } r)
          (circleCentre { x := x2, y := y } r)) := by
  have hr : (0 : ℚ) < r := lt_of_lt_of_le (by norm_num) h1
  rw [abs_le] at b0 b1 b2
  obtain ⟨b0l, b0u⟩ := b0
  obtain ⟨b1l, b1u⟩ := b1
  obtain ⟨b2l, b2u⟩ := b2
  simp only [insideCircle, distSq, centroid, circleCentre]
  refine ⟨?_, ?_, ?_⟩
  · apply sq_sum_lt _ _ r hr <;> rw [abs_le] <;> constructor <;> linarith
  · apply sq_sum_lt _ _ r hr <;> rw [abs_le] <;> constructor <;> linarith
  · apply sq_sum_lt _ _ r hr <;> rw [abs_le] <;> constructor <;> linarith

theorem centres_close_of_bounds (r x0 y x2 : ℚ) (h1 : 1 / 1073741824 ≤ r)
    (b0 : |x0 - (200 + 0.4 * r)| ≤ 1 / 1125899906842624 * (200 + r))
    (b1 : |y - (200 + 0.64 * r)| ≤ 1 / 1125899906842624 * (200 + r))
    (b2 : |x2 - (200 + 0.8 * r)| ≤ 1 / 1125899906842624 * (200 + r)) :
    distSq (circleCentre { x := x0, y := 200 } r) (circleCentre { x := 200, y := y } r)
        < (2 * r) ^ 2 ∧
      distSq (circleCentre { x := x0, y := 200 } r) (circleCentre { x := x2, y := y } r)
        < (2 * r) ^ 2 ∧
      distSq (circleCentre { x := 200, y := y } r) (circleCentre { x := x2, y := y } r)
        < (2 * r) ^ 2 := by
  have hr : (0 : ℚ) < r := lt_of_lt_of_le (by norm_num) h1
  rw [abs_le] at b0 b1 b2
  obtain ⟨b0l, b0u⟩ := b0
  obtain ⟨b1l, b1u⟩ := b1
  obtain ⟨b2l, b2u⟩ := b2
  simp only [distSq, circleCentre]
  refine ⟨?_, ?_, ?_⟩
  · apply sq_sum_lt_double _ _ r hr <;> rw [abs_le] <;> constructor <;> linarith
  · apply sq_sum_lt_double _ _ r hr <;> rw [abs_le] <;> constructor <;> linarith
  · apply sq_sum_lt_double _ _ r hr <;> rw [abs_le] <;> constructor <;> linarith

/-- Claim C11, amended: for every radius `r` from `2 ^ (-30)` up to `2 ^ 1000`,
the three circles of the layout for three labels (circle `i` is the circle of
radius `r` inscribed in the box of sides `2 r` whose top-left corner is entry
`i` of `getVennPositions(3, r)`) overlap pairwise, their centres being less than
`2 r` apart, and share a zone at the centre of the picture: the centroid of the
three centres lies strictly inside each of the three circles. -/
theorem three_circles_overlap (r : ℚ) (h1 : (2 : ℚ) ^ (-30 : ℤ) ≤ r)
    (_h2 : r ≤ 2 ^ (1000 : ℤ)) :
    ∃ p0 p1 p2 : Position, getVennPositions 3 r = [p0, p1, p2] ∧
      insideCircle (circleCentre p0 r) r
        (centroid (circleCentre p0 r) (circleCentre p1 r) (circleCentre p2 r)) ∧
      insideCircle (circleCentre p1 r) r
        (centroid (circleCentre p0 r) (circleCentre p1 r) (circleCentre p2 r)) ∧
      insideCircle (circleCentre p2 r) r
        (centroid (circleCentre p0 r) (circleCentre p1 r) (circleCentre p2 r)) ∧
      distSq (circleCentre p0 r) (circleCentre p1 r) < (2 * r) ^ 2 ∧
      distSq (circleCentre p0 r) (circleCentre p2 r) < (2 * r) ^ 2 ∧
      distSq (circleCentre p1 r) (circleCentre p2 r) < (2 * r) ^ 2 := by
  have hlow : (2 : ℚ) ^ (-1000 : ℤ) ≤ r := le_trans (by norm_num) h1
  obtain ⟨b0, b1, b2⟩ := rounded_offsets_bounds r hlow
  have u50 : (2 : ℚ) ^ (-50 : ℤ) = 1 / 1125899906842624 := by norm_num
  have u30 : (2 : ℚ) ^ (-30 : ℤ) = 1 / 1073741824 := by norm_num
  rw [u50] at b0 b1 b2
  rw [u30] at h1
  obtain ⟨c0, c1, c2⟩ := centroid_inside_of_bounds r _ _ _ h1 b0 b1 b2
  obtain ⟨d0, d1, d2⟩ := centres_close_of_bounds r _ _ _ h1 b0 b1 b2
  exact ⟨_, _, _, positions_three r, c0, c1, c2, d0, d1, d2⟩

/-- Witness of claim C11, amended, at the radius 200 of the program. -/
theorem three_circles_overlap_witness :
    ∃ p0 p1 p2 : Position, getVennPositions 3 200 = [p0, p1, p2] ∧
      insideCircle (circleCentre p0 200) 200
        (centroid (circleCentre p0 200) (circleCentre p1 200) (circleCentre p2 200)) ∧
      insideCircle (circleCentre p1 200) 200
        (centroid (circleCentre p0 200) (circleCentre p1 200) (circleCentre p2 200)) ∧
      insideCircle (circleCentre p2 200) 200
        (centroid (circleCentre p0 200) (circleCentre p1 200) (circleCentre p2 200)) ∧
      distSq (circleCentre p0 200) (circleCentre p1 200) < (2 * 200) ^ 2 ∧
      distSq (circleCentre p0 200) (circleCentre p2 200) < (2 * 200) ^ 2 ∧
      distSq (circleCentre p1 200) (circleCentre p2 200) < (2 * 200) ^ 2 :=
  three_circles_overlap 200 (by norm_num) (by norm_num)

/-- Claim C12, as the code behaves: in the document built for the text
`Entities: (React) (Angular) (Vue)` the block `all` is the box of corner
`(280, 328)`, width 100 and height 50, of centre `(330, 353)`; the circles
`entity_0`, `entity_1`, `entity_2` are inscribed in the boxes of side 400 at
`(280, 200)`, `(200, 328)`, `(360, 328)`, of centres `(480, 400)`, `(400, 528)`,
`(560, 528)`.  The centre of the block lies inside the first two circles and
outside the third one, as does the corner of the block nearest to that circle;
it would lie inside the three circles of radius 200 centred at the entries of
`getVennPositions(3, 200)` themselves. -/
theorem all_block_outside_third_circle :
    ∃ (e0 e1 e2 a : MxCell) (g0 g1 g2 ga : MxGeometry),
      (generateDrawIoXml (extractSets "Entities: (React) (Angular) (Vue)")).root[2]? = some e0 ∧
      (generateDrawIoXml (extractSets "Entities: (React) (Angular) (Vue)")).root[3]? = some e1 ∧
      (generateDrawIoXml (extractSets "Entities: (React) (Angular) (Vue)")).root[4]? = some e2 ∧
      (generateDrawIoXml (extractSets "Entities: (React) (Angular) (Vue)")).root[11]? = some a ∧
      e0.id = "entity_0" ∧ e1.id = "entity_1" ∧ e2.id = "entity_2" ∧ a.id = "all" ∧
      e0.geometry = some g0 ∧ e1.geometry = some g1 ∧ e2.geometry = some g2 ∧
      a.geometry = some ga ∧
      g0 = { x := 280, y := 200, width := 400, height := 400, as := "geometry" } ∧
      g1 = { x := 200, y := 328, width := 400, height := 400, as := "geometry" } ∧
      g2 = { x := 360, y := 328, width := 400, height := 400, as := "geometry" } ∧
      ga = { x := 280, y := 328, width := 100, height := 50, as := "geometry" } ∧
      boxCentre ga = { x := 330, y := 353 } ∧
      boxCentre g2 = { x := 560, y := 528 } ∧
      insideCircle (boxCentre g0) 200 (boxCentre ga) ∧
      insideCircle (boxCentre g1) 200 (boxCentre ga) ∧
      ¬ insideCircle (boxCentre g2) 200 (boxCentre ga) ∧
      distSq (boxCentre ga) (boxCentre g2) = 83525 ∧
      ¬ insideCircle (boxCentre g2) 200 { x := ga.x + ga.width, y := ga.y + ga.height } ∧
      (getVennPositions 3 200).all (fun p => decide (insideCircle p 200 (boxCentre ga))) = true := by
  have hs : extractSets "Entities: (React) (Angular) (Vue)" = ["React", "Angular", "Vue"] := by
    decide
  have ho : overlayApplies ["React", "Angular", "Vue"] = true := by decide
  have hp : getVennPositions 3 200 =
      [{ x := 280, y := 200 }, { x := 200, y := 328 }, { x := 360, y := 328 }] :=
    positions_three_200
  have hr : (generateDrawIoXml ["React", "Angular", "Vue"]).root =
      [{ id := "0", value := none, style := none, parent := none, vertex := none,
         geometry := none },
       { id := "1", value := none, style := none, parent := some "0", vertex := none,
         geometry := none }]
      ++ ["React", "Angular", "Vue"].mapIdx
        (entityCell [{ x := 280, y := 200 }, { x := 200, y := 328 }, { x := 360, y := 328 }]
          400 400 50)
      ++ texts.map textCell := by
    rw [root_eq, if_pos ho]
    simp only [List.length_cons, List.length_nil]
    rw [hp]
  rw [hs, hr]
  refine ⟨_, _, _, _, _, _, _, _, rfl, rfl, rfl, rfl, rfl, rfl, rfl, rfl, rfl, rfl, rfl, rfl,
    rfl, rfl, rfl, rfl, ?_, ?_, ?_, ?_, ?_, ?_, ?_, ?_⟩
  all_goals simp only [boxCentre, insideCircle, distSq, hp, List.all_cons, List.all_nil]
  all_goals norm_num

/-! ## The first label of a text -/

theorem newSet_foldl_prefix (xs acc : List String) :
    ∃ r, xs.foldl (fun acc x => if x ∈ acc then acc else acc ++ [x]) acc = acc ++ r := by
  induction xs generalizing acc with
  | nil => exact ⟨[], by simp⟩
  | cons x xs ih =>
    rw [List.foldl_cons]
    by_cases hx : x ∈ acc
    · rw [if_pos hx]; exact ih acc
    · rw [if_neg hx]
      obtain ⟨r, hr⟩ := ih (acc ++ [x])
      exact ⟨x :: r, by rw [hr]; simp⟩

theorem newSet_head? (x : String) (xs : List String) : (newSet (x :: xs)).head? = some x := by
  obtain ⟨r, hr⟩ := newSet_foldl_prefix xs [x]
  have : newSet (x :: xs) = [x] ++ r := by
    rw [← hr]; simp [newSet]
  rw [this]; rfl

theorem execAt_eq_none_of_ne (c : Char) (tl : List Char) (hc : c ≠ '(') :
    execAt (c :: tl) = none := by
  unfold execAt
  split
  · rename_i heq
    simp only [List.cons.injEq] at heq
    exact absurd heq.1 hc
  · rfl

/-- The search steps over a stretch of text without an opening parenthesis. -/
theorem matchAllFrom_skip (k pos : Nat) (p rest : List Char) (hp : '(' ∉ p) :
    matchAllFrom (p.length + k) pos (p ++ rest) = matchAllFrom k (pos + p.length) rest := by
  induction p generalizing pos with
  | nil => simp
  | cons c p ih =>
    have hc : c ≠ '(' := fun e => hp (e ▸ List.mem_cons_self _ _)
    have hfuel : (c :: p).length + k = (p.length + k) + 1 := by
      simp only [List.length_cons]; omega
    rw [hfuel, List.cons_append, matchAllFrom, execAt_eq_none_of_ne c _ hc]
    simp only
    rw [ih (pos + 1) (fun hm => hp (List.mem_cons_of_mem _ hm))]
    simp only [List.length_cons]
    congr 1
    omega

theorem matchAll_head (p L s : String) (hp : '(' ∉ p.data) (hne : L ≠ "")
    (hL : ')' ∉ L.data) :
    ∃ tl, matchAll (p ++ "(" ++ L ++ ")" ++ s) =
      { index := p.length, full := "(" ++ L ++ ")", capture := L } :: tl := by
  have hd : (p ++ "(" ++ L ++ ")" ++ s).data = p.data ++ ('(' :: L.data ++ ')' :: s.data) := by
    simp
  have hlen : (p.data ++ ('(' :: L.data ++ ')' :: s.data)).length =
      p.data.length + ((L.data.length + s.data.length + 1) + 1) := by
    simp; omega
  have hLne : L.data ≠ [] := fun e => hne (String.ext e)
  have hE : execAt ('(' :: (L.data ++ ')' :: s.data)) = some (L.data, s.data) :=
    (execAt_eq_some _ _ _).mpr ⟨by simp, hLne, hL⟩
  unfold matchAll
  rw [hd, hlen, matchAllFrom_skip _ _ _ _ hp]
  have hcons : '(' :: L.data ++ ')' :: s.data = '(' :: (L.data ++ ')' :: s.data) := rfl
  rw [hcons, matchAllFrom, hE]
  simp only [Nat.zero_add]
  refine ⟨matchAllFrom (L.data.length + s.data.length + 1)
    (p.data.length + (L.data.length + 2)) s.data, ?_⟩
  rfl

/-- Claim C15: for every text `p ++ "(" ++ L ++ ")" ++ s` where `p` has no `(`
and `L` is a non-empty string without `)`, the first match of the pattern is at
the end of `p`, and the first extracted label is exactly `L`, whatever blanks,
quotes or `(` it holds. -/
theorem first_label_verbatim (p L s : String) (hp : '(' ∉ p.data) (hne : L ≠ "")
    (hL : ')' ∉ L.data) :
    (extractSets (p ++ "(" ++ L ++ ")" ++ s)).head? = some L ∧
    (matchAll (p ++ "(" ++ L ++ ")" ++ s)).head? =
      some { index := p.length, full := "(" ++ L ++ ")", capture := L } := by
  obtain ⟨tl, htl⟩ := matchAll_head p L s hp hne hL
  constructor
  · unfold extractSets
    rw [htl, List.map_cons]
    exact newSet_head? _ _
  · rw [htl]; rfl

/-- Witness of claim C15 on a label with blanks, quotes and an opening
parenthesis. -/
theorem first_label_verbatim_witness :
    (extractSets ("entity " ++ "(" ++ " My Set as \"X\" (v2" ++ ")" ++ " and (B)")).head? =
      some " My Set as \"X\" (v2" ∧
    (matchAll ("entity " ++ "(" ++ " My Set as \"X\" (v2" ++ ")" ++ " and (B)")).head? =
      some { index := "entity ".length, full := "(" ++ " My Set as \"X\" (v2" ++ ")",
             capture := " My Set as \"X\" (v2" } :=
  first_label_verbatim "entity " " My Set as \"X\" (v2" " and (B)" (by decide) (by decide)
    (by decide)

/-! ## The positions of the circle cells -/

theorem positions_length (count : Nat) (r : ℚ) : (getVennPositions count r).length = count := by
  by_cases h2 : count = 2
  · subst h2; simp [getVennPositions]
  · by_cases h3 : count = 3
    · subst h3; simp [getVennPositions]
    · rw [getVennPositions_fallback count h2 h3 r]; simp

/-- Claim C16: for every list of `n` labels and every index `i < n`,
`getVennPositions(n, 200)` has an entry at index `i`, and the geometry `x` and
`y` of the cell `entity_i` are the `x` and `y` of that entry: the fallback
`index * 50` of `generateDrawIoXml` is not taken. -/
theorem entity_position (sets : List String) (i : Nat) (h : i < sets.length) :
    ∃ (p : Position) (c : MxCell) (g : MxGeometry),
      (getVennPositions sets.length 200)[i]? = some p ∧
      (generateDrawIoXml sets).root[2 + i]? = some c ∧
      c.id = "entity_" ++ toString i ∧
      c.geometry = some g ∧ g.x = p.x ∧ g.y = p.y := by
  obtain ⟨lbl, hl⟩ : ∃ lbl, sets[i]? = some lbl := ⟨sets[i], List.getElem?_eq_getElem h⟩
  have hlen : i < (getVennPositions sets.length 200).length := by
    rw [positions_length]; exact h
  obtain ⟨p, hpos⟩ : ∃ p, (getVennPositions sets.length 200)[i]? = some p :=
    ⟨_, List.getElem?_eq_getElem hlen⟩
  refine ⟨p, entityCell (getVennPositions sets.length 200) 400 400 50 i lbl,
    { x := p.x, y := p.y, width := 400, height := 400, as := "geometry" }, hpos, ?_, rfl,
    ?_, rfl, rfl⟩
  · rw [root_entity, if_pos h, hl]; rfl
  · simp only [entityCell, hpos]

/-- Witness of claim C16 on four labels, at index 3. -/
theorem entity_position_witness :
    ∃ (p : Position) (c : MxCell) (g : MxGeometry),
      (getVennPositions ["a", "b", "c", "d"].length 200)[3]? = some p ∧
      (generateDrawIoXml ["a", "b", "c", "d"]).root[2 + 3]? = some c ∧
      c.id = "entity_" ++ toString 3 ∧
      c.geometry = some g ∧ g.x = p.x ∧ g.y = p.y :=
  entity_position ["a", "b", "c", "d"] 3 (by decide)

/-! ## The ids of the cells -/

theorem digitChar_toNat (k : Nat) (hk : k < 10) : (Nat.digitChar k).toNat - 48 = k := by
  interval_cases k <;> rfl

/-- Reading the decimal digits written by `Nat.toDigitsCore` gives the number
back. -/
theorem toDigitsCore_read (fuel n : Nat) (ds : List Char) (h : n < fuel) :
    (Nat.toDigitsCore 10 fuel n ds).foldl (fun a c => a * 10 + (c.toNat - 48)) 0 =
      ds.foldl (fun a c => a * 10 + (c.toNat - 48)) n := by
  induction fuel generalizing n ds with
  | zero => omega
  | succ fuel ih =>
    simp only [Nat.toDigitsCore]
    have hd := digitChar_toNat (n % 10) (Nat.mod_lt n (by decide))
    split
    · rename_i h0
      rw [List.foldl_cons, hd]
      congr 1
      omega
    · rename_i h0
      rw [ih (n / 10) _ (by omega), List.foldl_cons, hd]
      congr 1
      omega

theorem toString_nat_injective (i j : Nat) (h : toString i = toString j) : i = j := by
  have hi : (toString i).data = Nat.toDigits 10 i := rfl
  have hj : (toString j).data = Nat.toDigits 10 j := rfl
  have e : Nat.toDigits 10 i = Nat.toDigits 10 j := by rw [← hi, ← hj, h]
  have ri := toDigitsCore_read (i + 1) i [] (Nat.lt_succ_self i)
  have rj := toDigitsCore_read (j + 1) j [] (Nat.lt_succ_self j)
  simp only [List.foldl_nil] at ri rj
  rw [← ri, ← rj]
  exact congrArg _ e

theorem entity_id_injective (i j : Nat) (h : "entity_" ++ toString i = "entity_" ++ toString j) :
    i = j := by
  apply toString_nat_injective
  apply String.ext
  have := congrArg String.data h
  simp only [String.data_append] at this
  exact List.append_cancel_left this

theorem entity_id_head (i : Nat) : ("entity_" ++ toString i).data.head? = some 'e' := by
  rw [String.data_append]
  rfl

/-- The ids of the cells of the logical root, in order. -/
theorem root_ids (sets : List String) :
    (generateDrawIoXml sets).root.map (fun c => c.id) =
      ["0", "1"] ++ (List.range sets.length).map (fun i => "entity_" ++ toString i)
        ++ (if overlayApplies sets then
              ["unique_react", "unique_angular", "unique_vue", "react_angular", "react_vue",
                "angular_vue", "all"]
            else []) := by
  rw [root_eq, List.map_append, List.map_append]
  congr 1
  · congr 1
    apply List.ext_getElem?
    intro k
    rw [List.getElem?_map, List.getElem?_mapIdx, List.getElem?_map]
    by_cases hk : k < sets.length
    · rw [List.getElem?_range hk, List.getElem?_eq_getElem hk]
      rfl
    · rw [List.getElem?_eq_none (by simpa using hk),
        List.getElem?_eq_none (by simpa using hk)]
      rfl
  · split
    · rfl
    · rfl

/-- Claim C17: for every list of labels, the ids of the cells of the document
built by `generateDrawIoXml` are `0`, `1`, `entity_0` to `entity_(n-1)` and, when
the overlay applies, the 7 ids of the overlay, and they are pairwise distinct,
whatever the labels are. -/
theorem cell_ids_distinct (sets : List String) :
    (generateDrawIoXml sets).root.map (fun c => c.id) =
      ["0", "1"] ++ (List.range sets.length).map (fun i => "entity_" ++ toString i)
        ++ (if overlayApplies sets then
              ["unique_react", "unique_angular", "unique_vue", "react_angular", "react_vue",
                "angular_vue", "all"]
            else []) ∧
    ((generateDrawIoXml sets).root.map (fun c => c.id)).Nodup := by
  refine ⟨root_ids sets, ?_⟩
  rw [root_ids]
  have hent : ((List.range sets.length).map (fun i => "entity_" ++ toString i)).Nodup :=
    (List.nodup_range _).map (fun i j h => entity_id_injective i j h)
  have hne : ∀ (i : Nat) (x : String), x.data.head? ≠ some 'e' →
      "entity_" ++ toString i ≠ x := by
    intro i x hx e
    exact hx (e ▸ entity_id_head i)
  have hfix : ∀ x ∈ ["0", "1", "unique_react", "unique_angular", "unique_vue", "react_angular",
      "react_vue", "angular_vue", "all"], x.data.head? ≠ some 'e' := by decide
  rw [List.nodup_append, List.nodup_append]
  refine ⟨⟨by decide, hent, ?_⟩, ?_, ?_⟩
  · intro x hx hx2
    obtain ⟨i, -, rfl⟩ := List.mem_map.mp hx2
    exact hne i _ (hfix _ (by
      simp only [List.mem_cons, List.mem_singleton, List.not_mem_nil, or_false] at hx ⊢
      rcases hx with h | h <;> simp [h])) rfl
  · split <;> decide
  · intro x hx hx2
    rw [List.mem_append] at hx
    have hx3 : x ∈ ["unique_react", "unique_angular", "unique_vue", "react_angular",
        "react_vue", "angular_vue", "all"] := by
      split at hx2
      · exact hx2
      · simp at hx2
    rcases hx with hx | hx
    · revert hx3
      simp only [List.mem_cons, List.mem_singleton, List.not_mem_nil, or_false] at hx
      rcases hx with rfl | rfl <;> decide
    · obtain ⟨i, -, rfl⟩ := List.mem_map.mp hx
      exact hne i _ (hfix _ (by
        simp only [List.mem_cons, List.mem_singleton, List.not_mem_nil, or_false] at hx3 ⊢
        rcases hx3 with h | h | h | h | h | h | h <;> simp [h])) rfl

/-! ## The conversion routine -/

theorem entityCell_geometry (positions : List Position) (width height : ℚ) (opacity i : Nat)
    (l : String) (p : Position) (h : positions[i]? = some p) :
    (entityCell positions width height opacity i l).geometry =
      some { x := p.x, y := p.y, width := width, height := height, as := "geometry" } := by
  simp only [entityCell, h]

/-- The outcome of `convert` on an input that can be read. -/
theorem convert_of_read (serialize : Document → String) (inputPath outputPath : String)
    (w : World) (pumlContent : String) (hread : w.fs.read inputPath = Except.ok pumlContent) :
    convert serialize inputPath outputPath w =
      match w.fs.writeError outputPath with
      | some message =>
        Except.ok
          { fs := w.fs
            console := w.console
              ++ (if (extractSets pumlContent).length < 2 ∨ (extractSets pumlContent).length > 3
                  then
                    [ConsoleLine.warn
                      ("Warning: Perfect Venn diagrams are best with 2 or 3 sets. Found "
                        ++ toString (extractSets pumlContent).length
                        ++ ". Logic will attempt to place them anyway.")]
                  else [])
              ++ [ConsoleLine.log ("Found " ++ toString (extractSets pumlContent).length
                    ++ " sets: " ++ join ", " (extractSets pumlContent)),
                  ConsoleLine.error ("Error: " ++ message)] }
      | none =>
        Except.ok
          { fs :=
              { read := fun p =>
                  if p = outputPath then
                    Except.ok (serialize (generateDrawIoXml (extractSets pumlContent)))
                  else w.fs.read p
                writeError := w.fs.writeError }
            console := w.console
              ++ (if (extractSets pumlContent).length < 2 ∨ (extractSets pumlContent).length > 3
                  then
                    [ConsoleLine.warn
                      ("Warning: Perfect Venn diagrams are best with 2 or 3 sets. Found "
                        ++ toString (extractSets pumlContent).length
                        ++ ". Logic will attempt to place them anyway.")]
                  else [])
              ++ [ConsoleLine.log ("Found " ++ toString (extractSets pumlContent).length
                    ++ " sets: " ++ join ", " (extractSets pumlContent)),
                  ConsoleLine.log ("Successfully created " ++ outputPath)] } := by
  unfold convert readFileSync
  rw [hread]
  simp only [writeFileSync, consoleLog, consoleWarn, consoleError, Bool.or_eq_true,
    decide_eq_true_eq]
  by_cases hc : (extractSets pumlContent).length < 2 ∨ (extractSets pumlContent).length > 3
  · rw [if_pos hc, if_pos hc]
    cases hw : w.fs.writeError outputPath <;> simp
  · rw [if_neg hc, if_neg hc]
    cases hw : w.fs.writeError outputPath <;> simp

theorem fallback_geometry (sets : List String)
    (hn : ¬ (sets.length = 2 ∨ sets.length = 3)) (i : Nat) (hi : i < sets.length) :
    ∃ (c : MxCell) (g : MxGeometry),
      (generateDrawIoXml sets).root[2 + i]? = some c ∧ c.geometry = some g ∧
        g.x = 200 + 50 * (i : ℚ) ∧ g.y = 200 + 50 * (i : ℚ) := by
  obtain ⟨lbl, hl⟩ : ∃ lbl, sets[i]? = some lbl := ⟨sets[i], List.getElem?_eq_getElem hi⟩
  have hpos : (getVennPositions sets.length 200)[i]? =
      some { x := 200 + ((i : ℚ) * 50), y := 200 + ((i : ℚ) * 50) } := by
    rw [getVennPositions_fallback _ (fun e => hn (Or.inl e)) (fun e => hn (Or.inr e)),
      List.getElem?_map, List.getElem?_range hi]
    rfl
  refine ⟨entityCell (getVennPositions sets.length 200) 400 400 50 i lbl, _, ?_,
    entityCell_geometry _ _ _ _ _ _ _ hpos, ?_, ?_⟩
  · rw [root_entity, if_pos hi, hl]; rfl
  · show (200 : ℚ) + (i : ℚ) * 50 = 200 + 50 * (i : ℚ)
    ring
  · show (200 : ℚ) + (i : ℚ) * 50 = 200 + 50 * (i : ℚ)
    ring

/-- Claim C13: for every input text that can be read, `convert` prints the
warning if and only if the number of unique labels is neither 2 nor 3, and the
warning does not stop the run: with or without it `convert` returns normally,
the other files are left as they are, and when the output path can be written
it then holds the serialised document of the labels and the success message is
the last line printed.  When the warning is printed the document has the
cascade layout: the cell `entity_i` is at `(200 + 50 i, 200 + 50 i)`. -/
theorem convert_warning_advisory (serialize : Document → String)
    (inputPath outputPath pumlContent : String) (w : World)
    (hread : w.fs.read inputPath = Except.ok pumlContent) :
    ∃ w2 : World, convert serialize inputPath outputPath w = Except.ok w2 ∧
      ((∃ text, ConsoleLine.warn text ∈ w2.console.drop w.console.length) ↔
        ¬ ((extractSets pumlContent).length = 2 ∨ (extractSets pumlContent).length = 3)) ∧
      (∀ path, path ≠ outputPath → w2.fs.read path = w.fs.read path) ∧
      (w.fs.writeError outputPath = none →
        w2.fs.read outputPath =
            Except.ok (serialize (generateDrawIoXml (extractSets pumlContent))) ∧
          w2.console.getLast? =
            some (ConsoleLine.log ("Successfully created " ++ outputPath))) ∧
      (¬ ((extractSets pumlContent).length = 2 ∨ (extractSets pumlContent).length = 3) →
        ∀ i : Nat, i < (extractSets pumlContent).length →
          ∃ (c : MxCell) (g : MxGeometry),
            (generateDrawIoXml (extractSets pumlContent)).root[2 + i]? = some c ∧
              c.geometry = some g ∧ g.x = 200 + 50 * (i : ℚ) ∧ g.y = 200 + 50 * (i : ℚ)) := by
  have hiff : ((extractSets pumlContent).length < 2 ∨ (extractSets pumlContent).length > 3) ↔
      ¬ ((extractSets pumlContent).length = 2 ∨ (extractSets pumlContent).length = 3) := by
    omega
  rw [convert_of_read serialize inputPath outputPath w pumlContent hread]
  cases hw : w.fs.writeError outputPath with
  | none =>
    refine ⟨_, rfl, ?_, ?_, ?_, fun hn => fallback_geometry _ hn⟩
    · simp only [List.append_assoc, List.drop_left]
      rw [← hiff]
      by_cases hc : (extractSets pumlContent).length < 2 ∨ (extractSets pumlContent).length > 3
      · simp [hc]
      · simp [hc]
    · intro path hpath
      simp [hpath]
    · intro _
      exact ⟨by simp, by simp⟩
  | some message =>
    refine ⟨_, rfl, ?_, ?_, ?_, fun hn => fallback_geometry _ hn⟩
    · simp only [List.append_assoc, List.drop_left]
      rw [← hiff]
      by_cases hc : (extractSets pumlContent).length < 2 ∨ (extractSets pumlContent).length > 3
      · simp [hc]
      · simp [hc]
    · intro path _
      rfl
    · intro h
      cases h

/-- Witness of claim C13: the file `in.puml` holds `(A)`, one label; the warning
is printed and the output file is written. -/
theorem convert_warning_advisory_witness :
    ∃ w2 : World,
      convert (fun d => toString d.root.length) "in.puml" "out.drawio"
        { fs := { read := fun p => if p = "in.puml" then Except.ok "(A)"
                    else Except.error "ENOENT"
                  writeError := fun _ => none }
          console := [] } = Except.ok w2 ∧
      (∃ text, ConsoleLine.warn text ∈ w2.console) ∧
      w2.fs.read "out.drawio" = Except.ok "3" ∧
      w2.console.getLast? = some (ConsoleLine.log "Successfully created out.drawio") := by
  obtain ⟨w2, h1, h2, -, h3, -⟩ :=
    convert_warning_advisory (fun d => toString d.root.length) "in.puml" "out.drawio" "(A)"
      { fs := { read := fun p => if p = "in.puml" then Except.ok "(A)"
                  else Except.error "ENOENT"
                writeError := fun _ => none }
        console := [] } rfl
  exact ⟨w2, h1, h2.mpr (by decide), h3 rfl⟩

/-- Claim C14: `convert` never lets an error out.  When reading the input path
fails, the file system is left as it was, and the only line printed is the error
message.  When the input is read and writing the output path fails, the file
system is left as it was too, the last line printed is the error message, and no
success message is printed. -/
theorem convert_catches_failures (serialize : Document → String)
    (inputPath outputPath : String) (w : World) :
    (∃ w2 : World, convert serialize inputPath outputPath w = Except.ok w2) ∧
    (∀ message : String, w.fs.read inputPath = Except.error message →
      ∃ w2 : World, convert serialize inputPath outputPath w = Except.ok w2 ∧
        w2.fs = w.fs ∧
        w2.console = w.console ++ [ConsoleLine.error ("Error: " ++ message)]) ∧
    (∀ pumlContent message : String, w.fs.read inputPath = Except.ok pumlContent →
      w.fs.writeError outputPath = some message →
      ∃ w2 : World, convert serialize inputPath outputPath w = Except.ok w2 ∧
        w2.fs = w.fs ∧
        w2.console.getLast? = some (ConsoleLine.error ("Error: " ++ message)) ∧
        ∀ text : String,
          ConsoleLine.log ("Successfully created " ++ text) ∉
            w2.console.drop w.console.length) := by
  refine ⟨?_, ?_, ?_⟩
  · cases hread : w.fs.read inputPath with
    | error message =>
      exact ⟨_, by unfold convert readFileSync; rw [hread]⟩
    | ok pumlContent =>
      rw [convert_of_read serialize inputPath outputPath w pumlContent hread]
      cases hw : w.fs.writeError outputPath with
      | none => exact ⟨_, rfl⟩
      | some message => exact ⟨_, rfl⟩
  · intro message hread
    refine ⟨consoleError w message, ?_, rfl, rfl⟩
    unfold convert readFileSync
    rw [hread]
  · intro pumlContent message hread hw
    rw [convert_of_read serialize inputPath outputPath w pumlContent hread, hw]
    refine ⟨_, rfl, rfl, by simp, ?_⟩
    intro text
    simp only [List.append_assoc, List.drop_left]
    have hF : ∀ a b : String, ConsoleLine.log ("Successfully created " ++ a) ≠
        ConsoleLine.log ("Found " ++ b) := by
      intro a b e
      have e2 := congrArg String.data (ConsoleLine.log.inj e)
      rw [String.data_append, String.data_append] at e2
      have e3 := congrArg List.head? e2
      have hS : ("Successfully created ".data ++ a.data).head? = some 'S' := rfl
      have hFo : ("Found ".data ++ b.data).head? = some 'F' := rfl
      rw [hS, hFo] at e3
      exact absurd e3 (by decide)
    intro hmem
    rw [List.mem_append] at hmem
    rcases hmem with hmem | hmem
    · split at hmem
      · simp at hmem
      · simp at hmem
    · simp only [List.mem_cons, List.mem_singleton, List.not_mem_nil, or_false] at hmem
      rcases hmem with hmem | hmem
      · rw [String.append_assoc, String.append_assoc] at hmem
        exact hF _ _ hmem
      · cases hmem

/-- Witness of claim C14: the input file is missing, and nothing is written. -/
theorem convert_catches_failures_witness :
    ∃ w2 : World,
      convert (fun d => toString d.root.length) "missing.puml" "out.drawio"
        { fs := { read := fun _ => Except.error "ENOENT: no such file or directory"
                  writeError := fun _ => none }
          console := [] } = Except.ok w2 ∧
      w2.fs.read "out.drawio" = Except.error "ENOENT: no such file or directory" ∧
      w2.console = [ConsoleLine.error "Error: ENOENT: no such file or directory"] := by
  obtain ⟨w2, h1, h2, h3⟩ :=
    (convert_catches_failures (fun d => toString d.root.length) "missing.puml" "out.drawio"
      { fs := { read := fun _ => Except.error "ENOENT: no such file or directory"
                writeError := fun _ => none }
        console := [] }).2.1 "ENOENT: no such file or directory" rfl
  exact ⟨w2, h1, by rw [h2], by rw [h3]; rfl⟩

end Converter
